import Mathlib

/-!
# Verification of the BackgroundCraft builder (`src/BackgroundBuilder.js`)

A shallow embedding of the option-coercion pipeline, the builder's
effect-lifecycle state machine, the representative `Starfield` effect module,
and a small reference heap modelling `JSON.parse(JSON.stringify(...))` deep
copies.  JavaScript numbers are embedded as exact rationals (`ℚ`); all inputs
appearing in the claims are exactly representable and every arithmetic
operation involved (parse, clamp, `Math.round`, `toFixed(4)`) is exact on
them.  DOM, canvas-context and console calls are external I/O and are not part
of the state; the builder's observable interactions with effect instances are
recorded as an explicit event trace.
-/

/-! ## JavaScript numeric primitives -/

/-- `Math.round`: rounds half toward positive infinity (`⌊x + 1/2⌋`). -/
def jsRound (q : ℚ) : ℚ := ((⌊q + 1/2⌋ : ℤ) : ℚ)

/-- `parseFloat(x.toFixed(4))`: decimal rounding at 4 fractional digits.
ECMA `toFixed` picks the closer 4-digit decimal, ties to the larger value,
which is `⌊x·10⁴ + 1/2⌋ / 10⁴`. -/
def toFixed4 (q : ℚ) : ℚ := ((⌊q * 10000 + 1/2⌋ : ℤ) : ℚ) / 10000

/-- One decimal digit. -/
def isDigitCh (c : Char) : Bool := c.isDigit

/-- Value of a digit string (`"123"` ↦ `123`). -/
def digitsVal (ds : List Char) : ℕ := ds.foldl (fun n c => 10 * n + (c.toNat - 48)) 0

/-- Exponent suffix of a float literal (`e±ddd`); an `e` not followed by a
digit is not consumed (`parseFloat("3e") = 3`). -/
def jsParseExponent (r2 : List Char) : ℤ :=
  match r2 with
  | 'e' :: t | 'E' :: t =>
    let esignAndRest : ℤ × List Char :=
      match t with
      | '-' :: u => (-1, u)
      | '+' :: u => (1, u)
      | _ => (1, t)
    let eds := esignAndRest.2.takeWhile isDigitCh
    if eds = [] then 0 else esignAndRest.1 * (digitsVal eds : ℤ)
  | _ => 0

/-- `parseFloat` on an already-trimmed string (the builder always trims first):
longest numeric prefix with optional sign, fraction and exponent; `none` when
no digits can be consumed (JS `NaN`).  (`"Infinity"` literals never occur in
this program's inputs and are not modelled.) -/
def jsParseParts (s : String) : Option (Bool × List Char × List Char × ℤ) :=
  let cs := s.toList
  let signAndRest : Bool × List Char :=
    match cs with
    | '-' :: t => (true, t)
    | '+' :: t => (false, t)
    | _ => (false, cs)
  let neg := signAndRest.1
  let cs1 := signAndRest.2
  let intDs := cs1.takeWhile isDigitCh
  let r1 := cs1.dropWhile isDigitCh
  let fracAndRest : List Char × List Char :=
    match r1 with
    | '.' :: t => (t.takeWhile isDigitCh, t.dropWhile isDigitCh)
    | _ => ([], r1)
  let fracDs := fracAndRest.1
  let r2 := fracAndRest.2
  if intDs = [] ∧ fracDs = [] then none
  else some (neg, intDs, fracDs, jsParseExponent r2)

/-- Assemble the parsed value: `±(int + frac/10^len)·10^exp`. -/
def jsParseFloat (s : String) : Option ℚ :=
  (jsParseParts s).map (fun p =>
    (if p.1 then (-1 : ℚ) else 1) *
      ((digitsVal p.2.1 : ℚ) + (digitsVal p.2.2.1 : ℚ) / (10 ^ p.2.2.1.length)) *
      (10 : ℚ) ^ p.2.2.2)

/-- `Math.max(min, Math.min(max, v))` with open ends for absent bounds
(`-Infinity` / `Infinity` in the source). -/
def jsClamp (lo hi : Option ℚ) (v : ℚ) : ℚ :=
  let v1 := match hi with
    | some m => min m v
    | none => v
  match lo with
  | some m => max m v1
  | none => v1

/-! ## Option values and control specs -/

/-- A JavaScript option value as stored in an Option Set: string, number,
boolean, or an array of strings (the only array-valued options in the
registry are comma-separated colour/character lists). -/
inductive JSVal where
  | str (s : String)
  | num (q : ℚ)
  | bool (b : Bool)
  | list (xs : List String)
deriving DecidableEq, Repr

/-- One schema entry (§ ControlSpec).  Numeric constraints are stored as the
numbers they hold in the manifest; `none` embeds JS `undefined`. -/
structure ControlSpec where
  key : String
  type : String
  min : Option ℚ := none
  max : Option ℚ := none
  step : Option ℚ := none
  default : Option ℚ := none
  requiresRestart : Bool := false
  requiresResize : Bool := false
deriving DecidableEq, Repr

/-- The integer-vs-fractional decision of `updateOption`
(`(Number.isInteger(schemaStep) && schemaStep >= 1) ||
  (!isNaN(schemaStep) && schemaStep === 0) ||
  (step === undefined && String(numValue).indexOf('.') === -1)`).
`String(x).indexOf('.') === -1` holds exactly when the number is integral,
for numbers rendered in plain decimal notation (all values this program
handles). -/
def isIntegerTy (step : Option ℚ) (numValue : ℚ) : Bool :=
  match step with
  | some s => (s.den = 1 ∧ 1 ≤ s) ∨ s = 0
  | none => numValue.den = 1

/-- The rounding applied after clamping on the parsable path. -/
def roundSpec (spec : ControlSpec) (c : ℚ) : ℚ :=
  if isIntegerTy spec.step c then jsRound c else toFixed4 c

/-- The full parsable-number path: clamp to `[min, max]`, then round. -/
def processNumeric (spec : ControlSpec) (q : ℚ) : ℚ :=
  roundSpec spec (jsClamp spec.min spec.max q)

/-- The integer-vs-fractional decision used on the unparsable-fallback path
(`(Number.isInteger(schemaStep) && schemaStep >= 1) || step === undefined`). -/
def isIntegerTyDefault (step : Option ℚ) : Bool :=
  match step with
  | some s => s.den = 1 ∧ 1 ≤ s
  | none => true

/-- Re-clamp and re-round of the schema default on the unparsable path. -/
def processDefault (spec : ControlSpec) (d : ℚ) : ℚ :=
  let c := jsClamp spec.min spec.max d
  if isIntegerTyDefault spec.step then jsRound c else toFixed4 c

/-- `String.prototype.trim`: strip whitespace from both ends (structural on
the character list, so proofs can evaluate it). -/
def jsTrim (s : String) : String :=
  ⟨((s.data.dropWhile Char.isWhitespace).reverse.dropWhile Char.isWhitespace).reverse⟩

/-- Split a character list at commas (every comma separates, so `""` yields
one empty segment, as with JS `"".split(',')`). -/
def splitCommaAux : List Char → List Char → List (List Char)
  | [], acc => [acc.reverse]
  | c :: rest, acc =>
    if c = ',' then acc.reverse :: splitCommaAux rest []
    else splitCommaAux rest (c :: acc)

/-- `s.split(',')`. -/
def jsSplitComma (s : String) : List String := (splitCommaAux s.data []).map String.mk

/-- `String(arr)` for an array of strings: elements joined with commas. -/
def jsJoinComma : List String → String
  | [] => ""
  | [x] => x
  | x :: rest => x ++ "," ++ jsJoinComma rest

/-- `String(value).trim() === ''`.  `String` of an array joins its elements
with commas; numbers and booleans never render empty. -/
def rawStrIsEmpty : JSVal → Bool
  | .str s => jsTrim s = ""
  | .list xs => jsTrim (jsJoinComma xs) = ""
  | _ => false

/-- `parseFloat(String(value).trim())`.  For a number JS's round-trip
`parseFloat(String(x)) = x` is exact; booleans and non-numeric strings parse
to `NaN` (`none`). -/
def parseRaw : JSVal → Option ℚ
  | .num q => some q
  | .str s => jsParseFloat (jsTrim s)
  | .bool _ => none
  | .list xs => jsParseFloat (jsTrim (jsJoinComma xs))

/-- The numeric branch of `updateOption` (lines 1392–1433): parse, clamp and
round, or fall back to the stored value / re-clamped default; `none` is the
bare `return` when no fallback exists. -/
def coerceNumber (spec : ControlSpec) (stored : Option JSVal) (value : JSVal) :
    Option JSVal :=
  let parsed : Option ℚ :=
    if rawStrIsEmpty value then spec.default else parseRaw value
  match parsed with
  | some q => some (.num (processNumeric spec q))
  | none =>
    match stored with
    | some v => some v
    | none =>
      match spec.default with
      | some d => some (.num (processDefault spec d))
      | none => none

/-- The list-valued text branch (lines 1434–1441): split on commas, trim,
drop empties; empty input yields `[]`, an unusable parse keeps the raw
string. -/
def coerceTextArray : JSVal → JSVal
  | .str s =>
    let parsedArray := ((jsSplitComma s).map jsTrim).filter (· ≠ "")
    if jsTrim s = "" then .list []
    else if parsedArray ≠ [] then .list parsedArray
    else .str s
  | v => v

/-- Whether the descriptor default for this key is an array
(`Array.isArray(bgInfoForSchema?.defaults?.[key])`). -/
def isListVal : Option JSVal → Bool
  | some (.list _) => true
  | _ => false

/-- Value processing of `updateOption`: dispatch on the schema entry found for
the key; unknown keys and all other control types pass through unchanged. -/
def processOptionValue (specEntry : Option ControlSpec) (defaultVal : Option JSVal)
    (stored : Option JSVal) (value : JSVal) : Option JSVal :=
  match specEntry with
  | some spec =>
    if spec.type = "number" then coerceNumber spec stored value
    else if spec.type = "text" ∧ isListVal defaultVal then some (coerceTextArray value)
    else some value
  | none => some value

/-! ## The Builder state machine

Effect classes are duck-typed in the source (`typeof inst.destroy ===
'function'` …); a `ClassDesc` records exactly the capabilities the builder
probes, plus whether the constructor throws and whether `start()` leaves a
non-null `animationId` (both behaviours of the plugged-in module, abstracted
here).  Every interaction of the builder with an effect instance is appended
to an event trace. -/

/-- Capability profile of a registered effect class. -/
structure ClassDesc where
  ctorThrows : Bool := false
  hasDestroy : Bool := true
  hasStop : Bool := true
  hasStart : Bool := true
  hasDraw : Bool := true
  hasResize : Bool := true
  hasUpdateInternal : Bool := true
  startsAnimation : Bool := true
deriving DecidableEq, Repr

/-- One `registeredBackgrounds` entry. -/
structure Descriptor where
  cls : ClassDesc
  defaults : List (String × JSVal)
  schema : List ControlSpec
deriving DecidableEq, Repr

/-- A live effect instance as the builder sees it. -/
structure EffectInstance where
  id : ℕ
  cls : ClassDesc
  animId : Bool
deriving DecidableEq, Repr

/-- Lifecycle calls the builder makes into effect instances. -/
inductive Event where
  | create (id : ℕ)
  | destroyCall (id : ℕ)
  | stopCall (id : ℕ)
  | startCall (id : ℕ)
  | drawCall (id : ℕ)
  | resizeCall (id : ℕ)
  | updateInternalCall (id : ℕ)
deriving DecidableEq, Repr

/-- Abstract content of the controls container (`innerHTML` states that the
builder writes). -/
inductive ControlsView where
  | placeholder
  | rendered
  | errorText
  | offline
deriving DecidableEq, Repr

/-- The builder's state.  DOM references are abstracted to presence flags;
`notifications` records the `backgroundOptionChanged` custom events. -/
structure Builder where
  valid : Bool
  hasCanvas : Bool
  hasCtx : Bool
  hasControls : Bool
  registry : List (String × Descriptor)
  currentType : Option String
  currentOptions : List (String × JSVal)
  currentInstance : Option EffectInstance
  nextId : ℕ
  trace : List Event
  notifications : List (String × List (String × JSVal))
  controls : ControlsView
deriving DecidableEq, Repr

/-- A freshly constructed valid builder over a fixed registry. -/
def initBuilder (reg : List (String × Descriptor)) : Builder where
  valid := true
  hasCanvas := true
  hasCtx := true
  hasControls := true
  registry := reg
  currentType := none
  currentOptions := []
  currentInstance := none
  nextId := 0
  trace := []
  notifications := []
  controls := .placeholder

/-- `destroy()` / `stop()` teardown calls issued for an instance
(lines 1102–1107 / 1474–1477 / 1790–1795). -/
def teardownEvents (i : EffectInstance) : List Event :=
  if i.cls.hasDestroy then [.destroyCall i.id]
  else if i.cls.hasStop then [.stopCall i.id]
  else []

/-- `start()` if present, else `draw()` (lines 1151–1157 and 1489–1490). -/
def startOrDraw (b : Builder) : Builder :=
  match b.currentInstance with
  | some i =>
    if i.cls.hasStart then
      { b with trace := b.trace ++ [.startCall i.id],
               currentInstance := some { i with animId := i.cls.startsAnimation } }
    else if i.cls.hasDraw then { b with trace := b.trace ++ [.drawCall i.id] }
    else b
  | none => b

/-- JS assoc lookup `obj[key]`. -/
def jsGet (l : List (String × JSVal)) (k : String) : Option JSVal :=
  (l.find? (fun p => p.1 = k)).map (fun p => p.2)

/-- JS property write `obj[key] = v` (keeps position of an existing key,
appends a new one). -/
def jsSet (l : List (String × JSVal)) (k : String) (v : JSVal) :
    List (String × JSVal) :=
  if (l.find? (fun p => p.1 = k)).isSome then
    l.map (fun p => if p.1 = k then (k, v) else p)
  else l ++ [(k, v)]

/-- Registry lookup `this.registeredBackgrounds[name]`. -/
def regGet (reg : List (String × Descriptor)) (name : String) : Option Descriptor :=
  (reg.find? (fun p => p.1 = name)).map (fun p => p.2)

/-- `registerBackground` (lines 1062–1079); the class argument is always a
constructor in this model, so only the validity guard is reached. -/
def registerBackground (b : Builder) (name : String) (d : Descriptor) : Builder :=
  if b.valid then
    { b with registry := (name, d) :: b.registry.filter (fun p => p.1 ≠ name) }
  else b

/-- `selectBackground` (lines 1087–1159).  Canvas clearing and dimension
fix-ups touch only the canvas (external); `JSON.parse(JSON.stringify(x))` is
the identity on the pure value trees used here (aliasing is studied in the
heap model below). -/
def selectBackground (b : Builder) (name : String)
    (optionsToLoad : Option (List (String × JSVal))) : Builder :=
  if ¬(b.valid ∧ b.hasCanvas ∧ b.hasCtx ∧ b.hasControls) then b
  else
    match regGet b.registry name with
    | none => { b with controls := .errorText }
    | some bgInfo =>
      let tdE := match b.currentInstance with
        | some i => teardownEvents i
        | none => []
      let b1 := { b with trace := b.trace ++ tdE, currentInstance := none,
                         currentType := some name,
                         currentOptions := optionsToLoad.getD bgInfo.defaults }
      if bgInfo.cls.ctorThrows then
        { b1 with controls := .errorText, currentInstance := none, currentType := none }
      else
        let b2 := { b1 with currentInstance := some ⟨b1.nextId, bgInfo.cls, false⟩,
                            nextId := b1.nextId + 1,
                            trace := b1.trace ++ [.create b1.nextId],
                            controls := .rendered }
        startOrDraw b2

/-- The restart arm of `updateOption` (lines 1478–1498): re-instantiate with
the full updated Option Set, then `start()`/`draw()`; a throwing constructor
nulls the instance and surfaces an inline error. -/
def restartInstance (b1 : Builder) (bgInfo : Descriptor) : Builder :=
  if bgInfo.cls.ctorThrows then
    { b1 with currentInstance := none, controls := .errorText }
  else
    startOrDraw { b1 with currentInstance := some ⟨b1.nextId, bgInfo.cls, false⟩,
                          nextId := b1.nextId + 1,
                          trace := b1.trace ++ [.create b1.nextId] }

/-- `updateOption` (lines 1378–1500). -/
def updateOption (b : Builder) (key : String) (value : JSVal) : Builder :=
  if ¬(b.valid ∧ b.hasCanvas) then b
  else
    match b.currentType with
    | none => b
    | some t =>
      let schema := match regGet b.registry t with
        | some d => d.schema
        | none => []
      let defaults := match regGet b.registry t with
        | some d => d.defaults
        | none => []
      let specEntry := schema.find? (fun s => s.key = key)
      match processOptionValue specEntry (jsGet defaults key)
          (jsGet b.currentOptions key) value with
      | none => b
      | some pv =>
        let opts' := jsSet b.currentOptions key pv
        let b1 := { b with currentOptions := opts',
                           notifications := b.notifications ++ [(t, opts')] }
        match regGet b.registry t with
        | none => b1
        | some bgInfo =>
          let requiresRestart := match specEntry with
            | some s => s.requiresRestart
            | none => false
          let requiresResize := match specEntry with
            | some s => s.requiresResize
            | none => false
          match b1.currentInstance with
          | some i =>
            if !requiresRestart && i.cls.hasUpdateInternal then
              { b1 with trace := b1.trace ++ [.updateInternalCall i.id]
                  ++ (if requiresResize && i.cls.hasResize then [.resizeCall i.id] else [])
                  ++ (if !i.animId && i.cls.hasDraw then [.drawCall i.id] else []) }
            else
              restartInstance { b1 with trace := b1.trace ++ teardownEvents i } bgInfo
          | none => restartInstance b1 bgInfo

/-- `destroy` of the builder itself (lines 1788–1825). -/
def destroyBuilder (b : Builder) : Builder :=
  let tdE := match b.currentInstance with
    | some i => teardownEvents i
    | none => []
  { b with trace := b.trace ++ tdE, currentInstance := none, currentType := none,
           controls := .offline, hasCanvas := false, hasCtx := false,
           hasControls := false, registry := [], currentOptions := [],
           valid := false }

/-- External calls into the builder's public lifecycle API. -/
inductive Op where
  | register (name : String) (d : Descriptor)
  | select (name : String) (optionsToLoad : Option (List (String × JSVal)))
  | update (key : String) (value : JSVal)
deriving DecidableEq, Repr

/-- Step one public call. -/
def stepOp (b : Builder) : Op → Builder
  | .register name d => registerBackground b name d
  | .select name opts => selectBackground b name opts
  | .update key value => updateOption b key value

/-- Run a call sequence. -/
def runOps (b : Builder) (ops : List Op) : Builder := ops.foldl stepOp b

/-! ## The representative effect module: `Starfield` (`src/backgrounds/starfield.js`)

`Math.random()` outputs are threaded through the state as a tape of rationals
(defaulting to `1/2` when the tape runs out, keeping the model total — the
draw-count and geometry claims hold for every tape).  Canvas-context commands
(`fillRect`, `arc`, `fill`) are external output; entries into `draw()` are
counted in `drawCalls`.  `resize()`/`draw()` are mutually recursive in the
source; the embedding makes the recursion explicit with a fuel parameter. -/

/-- One star. -/
structure StarObj where
  x : ℚ
  y : ℚ
  z : ℚ
  size : ℚ
deriving DecidableEq, Repr

/-- Mutable state of a `Starfield` instance.  The 2D context is always
acquired (the constructor throws otherwise), so no `ctx` flag is needed, and
`isInitialCallDuringConstruction` (which tests `!instance.ctx`) is constantly
false after construction. -/
structure StarfieldState where
  width : ℚ
  height : ℚ
  starCount : ℕ
  minStarSize : ℚ
  maxStarSize : ℚ
  baseSpeed : ℚ
  warpStrength : ℚ
  warpEffect : Bool
  stars : List StarObj
  animationId : Bool
  centerX : ℚ
  centerY : ℚ
  drawCalls : ℕ
  rng : List ℚ
deriving DecidableEq, Repr

/-- Draw one `Math.random()` value from the tape. -/
def nextRand (st : StarfieldState) : ℚ × StarfieldState :=
  match st.rng with
  | r :: rest => (r, { st with rng := rest })
  | [] => (1/2, st)

/-- `createStar(isInitial)` (lines 62–83); random draws occur in source
order: size, then x, then y, then (warp + initial only) z. -/
def createStar (isInitial : Bool) (st : StarfieldState) :
    StarObj × StarfieldState :=
  let p1 := nextRand st
  let size := p1.1 * (st.maxStarSize - st.minStarSize) + st.minStarSize
  if st.warpEffect then
    let p2 := nextRand p1.2
    let p3 := nextRand p2.2
    if isInitial then
      let p4 := nextRand p3.2
      (⟨(p2.1 - 1/2) * st.width * (3/2), (p3.1 - 1/2) * st.height * (3/2),
        p4.1 * st.width, size⟩, p4.2)
    else
      (⟨(p2.1 - 1/2) * st.width * (3/2), (p3.1 - 1/2) * st.height * (3/2),
        st.width, size⟩, p3.2)
  else
    let p2 := nextRand p1.2
    let p3 := nextRand p2.2
    (⟨p2.1 * st.width, p3.1 * st.height, 0, size⟩, p3.2)

/-- Append `n` freshly created stars (`createStar(true)`), threading the
random tape. -/
def fillStars (n : ℕ) (st : StarfieldState) : List StarObj × StarfieldState :=
  match n with
  | 0 => ([], st)
  | n + 1 =>
    let c := createStar true st
    let r := fillStars n c.2
    (c.1 :: r.1, r.2)

/-- Per-star update of the warp branch of the render loop (lines 161–181);
the projection and `arc` calls are pure canvas output. -/
def warpStep (st : StarfieldState) (star : StarObj) :
    StarObj × StarfieldState :=
  let z1 := star.z - st.baseSpeed * (star.size / st.maxStarSize + 1/2)
  if z1 ≤ 0 then
    let c := createStar false st
    let p5 := nextRand c.2
    let p6 := nextRand p5.2
    ({ c.1 with z := st.width, x := (p5.1 - 1/2) * st.width * (3/2),
                y := (p6.1 - 1/2) * st.height * (3/2) }, p6.2)
  else
    ({ star with z := z1 }, st)

/-- Per-star update of the scrolling branch (lines 182–191); the respawned
`x` uses the star's old size, as in the source. -/
def scrollStep (st : StarfieldState) (star : StarObj) :
    StarObj × StarfieldState :=
  let x1 := star.x - st.baseSpeed * (st.maxStarSize / star.size + 1/5)
  if x1 + star.size < 0 then
    let py := nextRand st
    let ps := nextRand py.2
    ({ star with x := st.width + star.size, y := py.1 * st.height,
                 size := ps.1 * (st.maxStarSize - st.minStarSize)
                   + st.minStarSize }, ps.2)
  else
    ({ star with x := x1 }, st)

/-- The render loop over all stars, threading the tape. -/
def renderStars (st : StarfieldState) : List StarObj →
    (List StarObj × StarfieldState)
  | [] => ([], st)
  | star :: rest =>
    let p := if st.warpEffect then warpStep st star else scrollStep st star
    let r := renderStars p.2 rest
    (p.1 :: r.1, r.2)

/-- `draw()`'s main render pass after its guards. -/
def renderPass (st : StarfieldState) : StarfieldState :=
  let r := renderStars st st.stars
  { r.2 with stars := r.1 }

/-- The body of `resize()` before its trailing idle redraw: recompute the
centre, truncate or top up the star array to `starCount`, and (the array
then being full and the construction-time heuristic `!this.ctx` being
constantly false) re-create all stars. -/
def resizeCore (st : StarfieldState) : StarfieldState :=
  let st1 := { st with centerX := st.width / 2, centerY := st.height / 2 }
  let kept := st1.stars.take st1.starCount
  let f := fillStars (st1.starCount - kept.length) { st1 with stars := kept }
  let st3 : StarfieldState := { f.2 with stars := kept ++ f.1 }
  if st3.stars.length > 0 ∧ st3.stars.length = st3.starCount then
    let f2 := fillStars st3.starCount { st3 with stars := [] }
    { f2.2 with stars := f2.1 }
  else st3

mutual

/-- `resize()` (lines 85–128), fuel-explicit. -/
def resizeS : ℕ → StarfieldState → StarfieldState
  | 0, st => st
  | fuel + 1, st =>
    if st.width = 0 ∨ st.height = 0 then { st with stars := [] }
    else
      let st4 := resizeCore st
      if st4.animationId then st4 else drawS fuel st4

/-- `draw()` (lines 130–194), fuel-explicit; each entry bumps `drawCalls`. -/
def drawS : ℕ → StarfieldState → StarfieldState
  | 0, st => st
  | fuel + 1, st =>
    let st0 := { st with drawCalls := st.drawCalls + 1 }
    if st0.width = 0 ∨ st0.height = 0 then st0
    else if st0.stars.length = 0 ∧ st0.starCount > 0 then
      let st1 := resizeS fuel st0
      if st1.stars.length = 0 then st1 else renderPass st1
    else if st0.stars.length = 0 ∧ st0.starCount = 0 then st0
    else renderPass st0

end

/-- `stop()` (lines 220–225). -/
def stopS (st : StarfieldState) : StarfieldState :=
  if st.animationId then { st with animationId := false } else st

/-! ## Reference heap: `JSON.parse(JSON.stringify(x))` deep copies

`selectBackground` stores `JSON.parse(JSON.stringify(optionsToLoad ||
bgInfo.defaults))` into `this.currentOptions` (line 1119).  To state that the
copy shares no mutable structure with the registered defaults object, objects
and arrays are given identities: composite values live at addresses in a
heap, and the copy allocates only fresh addresses. -/

/-- A JS value: a primitive, or a reference to a composite on the heap. -/
inductive HVal where
  | vnull
  | vbool (b : Bool)
  | vnum (q : ℚ)
  | vstr (s : String)
  | vref (a : ℕ)
deriving DecidableEq, Repr

/-- A composite heap cell: an object or an array. -/
inductive HCell where
  | hobj (fields : List (String × HVal))
  | harr (elems : List HVal)
deriving DecidableEq, Repr

/-- The heap: address–cell associations (addresses are unique; new cells are
prepended). -/
abbrev Heap := List (ℕ × HCell)

/-- Heap lookup. -/
def hLookup (h : Heap) (a : ℕ) : Option HCell :=
  (List.find? (fun p => p.1 = a) h).map (fun p => p.2)

/-- The addresses a value refers to directly (zero or one). -/
def valRefs : HVal → List ℕ
  | .vref a => [a]
  | _ => []

/-- The addresses a cell refers to directly. -/
def cellRefs : HCell → List ℕ
  | .hobj fs => fs.foldr (fun p acc => valRefs p.2 ++ acc) []
  | .harr es => es.foldr (fun v acc => valRefs v ++ acc) []

mutual

/-- `JSON.parse(JSON.stringify(v))`: structure-preserving copy allocating
fresh addresses from the counter `c`; `none` when the fuel runs out (JSON
serialisation of a cyclic object throws — enough fuel always exists for
acyclic data, which is all the program creates). -/
def copyV : ℕ → Heap → ℕ → HVal → Option (HVal × Heap × ℕ)
  | 0, _, _, _ => none
  | fuel + 1, h, c, v =>
    match v with
    | .vref a =>
      match hLookup h a with
      | none => none
      | some (.hobj fs) =>
        match copyFields fuel h c fs with
        | some (fs', h', c') => some (.vref c', (c', .hobj fs') :: h', c' + 1)
        | none => none
      | some (.harr es) =>
        match copyElems fuel h c es with
        | some (es', h', c') => some (.vref c', (c', .harr es') :: h', c' + 1)
        | none => none
    | prim => some (prim, h, c)

/-- Copy the field list of an object cell. -/
def copyFields : ℕ → Heap → ℕ → List (String × HVal) →
    Option (List (String × HVal) × Heap × ℕ)
  | 0, _, _, _ => none
  | _ + 1, h, c, [] => some ([], h, c)
  | fuel + 1, h, c, (k, v) :: rest =>
    match copyV fuel h c v with
    | some (v', h', c') =>
      match copyFields fuel h' c' rest with
      | some (rest', h'', c'') => some ((k, v') :: rest', h'', c'')
      | none => none
    | none => none

/-- Copy the element list of an array cell. -/
def copyElems : ℕ → Heap → ℕ → List HVal → Option (List HVal × Heap × ℕ)
  | 0, _, _, _ => none
  | _ + 1, h, c, [] => some ([], h, c)
  | fuel + 1, h, c, v :: rest =>
    match copyV fuel h c v with
    | some (v', h', c') =>
      match copyElems fuel h' c' rest with
      | some (rest', h'', c'') => some ((v' :: rest', h'', c''))
      | none => none
    | none => none

end

/-- Addresses reachable from a value (fuel-bounded). -/
def reachV : ℕ → Heap → HVal → List ℕ
  | 0, _, _ => []
  | fuel + 1, h, v =>
    (valRefs v).flatMap (fun a =>
      a :: (match hLookup h a with
            | some cell => (cellRefs cell).flatMap (fun r => reachV fuel h (.vref r))
            | none => []))

/-- A property write `target[key] = v` through a reference, mutating the heap
cell at address `a` (this is what `updateOption`'s
`this.currentOptions[key] = processedValue` does to the Option Set object). -/
def setFieldH (h : Heap) (a : ℕ) (k : String) (v : HVal) : Heap :=
  List.map (fun p =>
    if p.1 = a then
      match p.2 with
      | HCell.hobj fs =>
        (p.1, HCell.hobj (if (fs.find? (fun q => q.1 = k)).isSome then
            fs.map (fun q => if q.1 = k then (k, v) else q)
          else fs ++ [(k, v)]))
      | other => (p.1, other)
    else p) h

/-- Every allocated address and every reference stored in the heap is below
`c` (the allocator never hands out the same address twice). -/
def heapWF (h : Heap) (c : ℕ) : Prop :=
  ∀ p ∈ h, p.1 < c ∧ ∀ r ∈ cellRefs p.2, r < c

/-- All direct references of a value are below `c`. -/
def valBound (v : HVal) (c : ℕ) : Prop := ∀ r ∈ valRefs v, r < c

/-! ## Rounding and clamping lemmas -/
theorem jsRound_le_jsRound {q r : ℚ} (h : q ≤ r) : jsRound q ≤ jsRound r := by
  unfold jsRound
  exact_mod_cast Int.floor_le_floor (by linarith)

theorem jsRound_intCast (n : ℤ) : jsRound (n : ℚ) = n := by
  unfold jsRound
  rw [Int.floor_int_add]
  norm_num

theorem jsRound_den_one {q : ℚ} (h : q.den = 1) : jsRound q = q := by
  have hq : ((q.num : ℚ)) = q := by
    rw [← Rat.den_eq_one_iff]; exact h
  rw [← hq, jsRound_intCast]

theorem jsRound_idem (q : ℚ) : jsRound (jsRound q) = jsRound q := by
  unfold jsRound
  rw [show ((⌊q + 1/2⌋ : ℤ) : ℚ) + 1/2 = ((⌊q + 1/2⌋ : ℤ) : ℚ) + 1/2 from rfl,
      Int.floor_int_add]
  norm_num

theorem toFixed4_le_toFixed4 {q r : ℚ} (h : q ≤ r) : toFixed4 q ≤ toFixed4 r := by
  unfold toFixed4
  have : (⌊q * 10000 + 1/2⌋ : ℤ) ≤ ⌊r * 10000 + 1/2⌋ :=
    Int.floor_le_floor (by linarith)
  have h2 : ((⌊q * 10000 + 1/2⌋ : ℤ) : ℚ) ≤ ((⌊r * 10000 + 1/2⌋ : ℤ) : ℚ) := by
    exact_mod_cast this
  linarith

theorem toFixed4_intCast (n : ℤ) : toFixed4 (n : ℚ) = n := by
  unfold toFixed4
  rw [show ((n : ℚ) * 10000 + 1/2 : ℚ) = ((n * 10000 : ℤ) : ℚ) + 1/2 by push_cast; ring,
      Int.floor_int_add]
  push_cast
  norm_num

theorem toFixed4_idem (q : ℚ) : toFixed4 (toFixed4 q) = toFixed4 q := by
  unfold toFixed4
  rw [show ((⌊q * 10000 + 1/2⌋ : ℤ) : ℚ) / 10000 * 10000 = ((⌊q * 10000 + 1/2⌋ : ℤ) : ℚ) by
        field_simp,
      Int.floor_int_add]
  norm_num

theorem toFixed4_den_one {q : ℚ} (h : q.den = 1) : toFixed4 q = q := by
  have hq : ((q.num : ℚ)) = q := by
    rw [← Rat.den_eq_one_iff]; exact h
  rw [← hq, toFixed4_intCast]

theorem roundSpec_step_none (spec : ControlSpec) (h : spec.step = none) (q : ℚ) :
    roundSpec spec q = toFixed4 q := by
  unfold roundSpec isIntegerTy
  rw [h]
  by_cases hd : q.den = 1
  · simp [hd, jsRound_den_one hd, toFixed4_den_one hd]
  · simp [hd]

theorem roundSpec_le_roundSpec (spec : ControlSpec) {q r : ℚ} (h : q ≤ r) :
    roundSpec spec q ≤ roundSpec spec r := by
  cases hs : spec.step with
  | none =>
    rw [roundSpec_step_none spec hs, roundSpec_step_none spec hs]
    exact toFixed4_le_toFixed4 h
  | some s =>
    unfold roundSpec isIntegerTy
    rw [hs]
    by_cases hc : ((s.den = 1 ∧ 1 ≤ s) ∨ s = 0)
    · simp only [decide_eq_true hc, if_true]
      exact jsRound_le_jsRound h
    · simp only [decide_eq_false hc, Bool.false_eq_true, if_false]
      exact toFixed4_le_toFixed4 h

theorem roundSpec_idem (spec : ControlSpec) (q : ℚ) :
    roundSpec spec (roundSpec spec q) = roundSpec spec q := by
  cases hs : spec.step with
  | none =>
    rw [roundSpec_step_none spec hs, roundSpec_step_none spec hs]
    exact toFixed4_idem q
  | some s =>
    unfold roundSpec isIntegerTy
    rw [hs]
    by_cases hc : ((s.den = 1 ∧ 1 ≤ s) ∨ s = 0)
    · simp only [decide_eq_true hc, if_true]
      exact jsRound_idem q
    · simp only [decide_eq_false hc, Bool.false_eq_true, if_false]
      exact toFixed4_idem q

theorem jsClamp_some_some (a b q : ℚ) : jsClamp (some a) (some b) q = max a (min b q) := rfl

theorem post_clamp_idem (post : ℚ → ℚ)
    (mono : ∀ {q r : ℚ}, q ≤ r → post q ≤ post r)
    (idem : ∀ q : ℚ, post (post q) = post q)
    (a b : ℚ) (hab : a ≤ b) (q : ℚ) :
    post (jsClamp (some a) (some b) (post (jsClamp (some a) (some b) q))) =
      post (jsClamp (some a) (some b) q) := by
  rw [jsClamp_some_some, jsClamp_some_some]
  set c := max a (min b q) with hc
  have hac : a ≤ c := le_max_left _ _
  have hcb : c ≤ b := max_le hab (min_le_left _ _)
  set y := post c with hy
  rcases lt_or_le y a with hlt | hge
  · have h1 : min b y = y := min_eq_right (le_trans hlt.le hab)
    have h2 : max a y = a := max_eq_left hlt.le
    rw [h1, h2]
    have hle : post a ≤ y := mono hac
    have hge2 : y ≤ post a := by
      have := mono hlt.le
      rw [hy, idem] at this
      exact this
    exact le_antisymm hle hge2
  · rcases le_or_lt y b with hyb | hby
    · have h1 : min b y = y := min_eq_right hyb
      have h2 : max a y = y := max_eq_right hge
      rw [h1, h2, hy, idem]
    · have h1 : min b y = b := min_eq_left hby.le
      have h2 : max a b = b := max_eq_right hab
      rw [h1, h2]
      have hle : post b ≤ y := by
        have := mono hby.le
        rw [hy, idem] at this
        exact this
      have hge2 : y ≤ post b := mono hcb
      exact le_antisymm hle hge2

theorem processNumeric_idem (spec : ControlSpec) (a b : ℚ)
    (hmin : spec.min = some a) (hmax : spec.max = some b) (hab : a ≤ b) (q : ℚ) :
    processNumeric spec (processNumeric spec q) = processNumeric spec q := by
  unfold processNumeric
  rw [hmin, hmax]
  exact post_clamp_idem (roundSpec spec) (fun h => roundSpec_le_roundSpec spec h)
    (roundSpec_idem spec) a b hab q

theorem processNumeric_above_max (spec : ControlSpec) (a b : ℚ)
    (hmin : spec.min = some a) (hmax : spec.max = some b) (hab : a ≤ b)
    {q : ℚ} (hq : b < q) : processNumeric spec q = roundSpec spec b := by
  unfold processNumeric
  rw [hmin, hmax, jsClamp_some_some, min_eq_left hq.le, max_eq_right hab]

theorem processNumeric_below_min (spec : ControlSpec) (a b : ℚ)
    (hmin : spec.min = some a) (hmax : spec.max = some b) (hab : a ≤ b)
    {q : ℚ} (hq : q < a) : processNumeric spec q = roundSpec spec a := by
  unfold processNumeric
  rw [hmin, hmax, jsClamp_some_some, min_eq_right (le_trans hq.le hab),
    max_eq_left hq.le]

theorem processNumeric_in_range (spec : ControlSpec) (a b : ℚ)
    (hmin : spec.min = some a) (hmax : spec.max = some b)
    {q : ℚ} (ha : a ≤ q) (hb : q ≤ b) : processNumeric spec q = roundSpec spec q := by
  unfold processNumeric
  rw [hmin, hmax, jsClamp_some_some, min_eq_right hb, max_eq_right ha]

/-! ## Option Set storage lemmas -/
theorem find?_map_jsSet (l : List (String × JSVal)) (k : String) (v : JSVal)
    (h : (l.find? (fun p => p.1 = k)).isSome) :
    (l.map (fun p => if p.1 = k then (k, v) else p)).find? (fun p => p.1 = k)
      = some (k, v) := by
  induction l with
  | nil => simp at h
  | cons p t ih =>
    by_cases hp : p.1 = k
    · simp only [List.map, if_pos hp]
      rw [List.find?_cons_of_pos]
      simp
    · rw [List.find?_cons_of_neg _ (by simp [hp])] at h
      simp only [List.map, if_neg hp]
      rw [List.find?_cons_of_neg _ (by simp [hp])]
      exact ih h

theorem find?_append_none (l : List (String × JSVal)) (k : String) (v : JSVal)
    (h : l.find? (fun p => p.1 = k) = none) :
    (l ++ [(k, v)]).find? (fun p => p.1 = k) = some (k, v) := by
  induction l with
  | nil =>
    simp only [List.nil_append]
    rw [List.find?_cons_of_pos]
    simp
  | cons p t ih =>
    by_cases hp : p.1 = k
    · rw [List.find?_cons_of_pos _ (by simp [hp])] at h
      simp at h
    · rw [List.find?_cons_of_neg _ (by simp [hp])] at h
      simp only [List.cons_append]
      rw [List.find?_cons_of_neg _ (by simp [hp])]
      exact ih h

theorem jsGet_jsSet_self (l : List (String × JSVal)) (k : String) (v : JSVal) :
    jsGet (jsSet l k v) k = some v := by
  unfold jsGet jsSet
  by_cases h : (l.find? (fun p => p.1 = k)).isSome
  · rw [if_pos h, find?_map_jsSet l k v h]
    rfl
  · rw [if_neg h, find?_append_none l k v]
    · rfl
    · rcases hf : l.find? (fun p => p.1 = k) with _ | x
      · exact hf
      · rw [hf] at h; simp at h

/-! ## Frame lemmas for the instance paths of updateOption -/
theorem startOrDraw_frame (b : Builder) :
    (startOrDraw b).currentOptions = b.currentOptions ∧
    (startOrDraw b).currentType = b.currentType ∧
    (startOrDraw b).registry = b.registry ∧
    (startOrDraw b).valid = b.valid ∧
    (startOrDraw b).hasCanvas = b.hasCanvas ∧
    (startOrDraw b).hasCtx = b.hasCtx ∧
    (startOrDraw b).hasControls = b.hasControls ∧
    (startOrDraw b).notifications = b.notifications := by
  unfold startOrDraw
  rcases b.currentInstance with _ | i
  · exact ⟨rfl, rfl, rfl, rfl, rfl, rfl, rfl, rfl⟩
  · dsimp only
    split
    · exact ⟨rfl, rfl, rfl, rfl, rfl, rfl, rfl, rfl⟩
    · split
      · exact ⟨rfl, rfl, rfl, rfl, rfl, rfl, rfl, rfl⟩
      · exact ⟨rfl, rfl, rfl, rfl, rfl, rfl, rfl, rfl⟩

@[simp] theorem startOrDraw_currentOptions (b : Builder) :
    (startOrDraw b).currentOptions = b.currentOptions := (startOrDraw_frame b).1

@[simp] theorem startOrDraw_currentType (b : Builder) :
    (startOrDraw b).currentType = b.currentType := (startOrDraw_frame b).2.1

@[simp] theorem startOrDraw_registry (b : Builder) :
    (startOrDraw b).registry = b.registry := (startOrDraw_frame b).2.2.1

@[simp] theorem startOrDraw_valid (b : Builder) :
    (startOrDraw b).valid = b.valid := (startOrDraw_frame b).2.2.2.1

@[simp] theorem startOrDraw_hasCanvas (b : Builder) :
    (startOrDraw b).hasCanvas = b.hasCanvas := (startOrDraw_frame b).2.2.2.2.1

@[simp] theorem startOrDraw_hasCtx (b : Builder) :
    (startOrDraw b).hasCtx = b.hasCtx := (startOrDraw_frame b).2.2.2.2.2.1

@[simp] theorem startOrDraw_hasControls (b : Builder) :
    (startOrDraw b).hasControls = b.hasControls := (startOrDraw_frame b).2.2.2.2.2.2.1

@[simp] theorem startOrDraw_notifications (b : Builder) :
    (startOrDraw b).notifications = b.notifications := (startOrDraw_frame b).2.2.2.2.2.2.2

@[simp] theorem restartInstance_currentOptions (b : Builder) (d : Descriptor) :
    (restartInstance b d).currentOptions = b.currentOptions := by
  unfold restartInstance
  split
  · rfl
  · simp

@[simp] theorem restartInstance_currentType (b : Builder) (d : Descriptor) :
    (restartInstance b d).currentType = b.currentType := by
  unfold restartInstance
  split
  · rfl
  · simp

@[simp] theorem restartInstance_registry (b : Builder) (d : Descriptor) :
    (restartInstance b d).registry = b.registry := by
  unfold restartInstance
  split
  · rfl
  · simp

@[simp] theorem restartInstance_valid (b : Builder) (d : Descriptor) :
    (restartInstance b d).valid = b.valid := by
  unfold restartInstance
  split
  · rfl
  · simp

@[simp] theorem restartInstance_hasCanvas (b : Builder) (d : Descriptor) :
    (restartInstance b d).hasCanvas = b.hasCanvas := by
  unfold restartInstance
  split
  · rfl
  · simp

@[simp] theorem restartInstance_hasCtx (b : Builder) (d : Descriptor) :
    (restartInstance b d).hasCtx = b.hasCtx := by
  unfold restartInstance
  split
  · rfl
  · simp

@[simp] theorem restartInstance_hasControls (b : Builder) (d : Descriptor) :
    (restartInstance b d).hasControls = b.hasControls := by
  unfold restartInstance
  split
  · rfl
  · simp

@[simp] theorem restartInstance_notifications (b : Builder) (d : Descriptor) :
    (restartInstance b d).notifications = b.notifications := by
  unfold restartInstance
  split
  · rfl
  · simp

/-- Once `updateOption` has decided on a processed value, it stores it into
the Option Set and emits one change notification, whatever the instance path
does afterwards. -/
theorem updateOption_stores (b : Builder) (key : String) (value : JSVal)
    (t : String) (d : Descriptor) (pv : JSVal)
    (hv : b.valid = true) (hc : b.hasCanvas = true)
    (ht : b.currentType = some t)
    (hreg : regGet b.registry t = some d)
    (hpv : processOptionValue (d.schema.find? (fun s => s.key = key))
      (jsGet d.defaults key) (jsGet b.currentOptions key) value = some pv) :
    (updateOption b key value).currentOptions = jsSet b.currentOptions key pv ∧
    (updateOption b key value).currentType = some t ∧
    (updateOption b key value).registry = b.registry ∧
    (updateOption b key value).valid = true ∧
    (updateOption b key value).hasCanvas = true ∧
    (updateOption b key value).notifications
      = b.notifications ++ [(t, jsSet b.currentOptions key pv)] := by
  unfold updateOption
  simp only [hv, hc, ht, hreg, hpv, eq_self_iff_true, and_self, not_true,
    ite_false]
  rcases hinst : b.currentInstance with _ | i
  · simp [ht]
  · dsimp only
    split
    · simp [ht]
    · simp [ht]

/-! ## C2: clamping (counterexample, amended theorem, witness) -/
theorem coerceNumber_parsable (spec : ControlSpec) (stored : Option JSVal)
    (value : JSVal) (q : ℚ) (hne : rawStrIsEmpty value = false)
    (hp : parseRaw value = some q) :
    coerceNumber spec stored value = some (.num (processNumeric spec q)) := by
  unfold coerceNumber
  simp [hne, hp]

theorem processOptionValue_number (spec : ControlSpec) (dv stored : Option JSVal)
    (value : JSVal) (htype : spec.type = "number") :
    processOptionValue (some spec) dv stored value = coerceNumber spec stored value := by
  unfold processOptionValue
  simp [htype]

/-- The concrete schema of the clamp counterexample: `min 0`, `max 0.5`,
integer step `1`. -/
def cexSpec : ControlSpec :=
  { key := "k", type := "number", min := some 0, max := some (1/2), step := some 1 }

/-- Registry entry carrying `cexSpec`. -/
def cexDesc : Descriptor := { cls := {}, defaults := [], schema := [cexSpec] }

/-- A valid builder with `cexDesc` registered and selected. -/
def cexBuilder : Builder :=
  selectBackground (registerBackground (initBuilder []) "FX" cexDesc) "FX" none

theorem parseRaw_str_three : parseRaw (.str "3") = some 3 := by
  have h : jsParseParts (jsTrim "3") = some (false, ['3'], [], 0) := by decide
  have h1 : digitsVal ['3'] = 3 := by decide
  simp [parseRaw, jsParseFloat, h, h1, digitsVal]

theorem processNumeric_cexSpec_three : processNumeric cexSpec 3 = 1 := by
  norm_num [processNumeric, cexSpec, jsClamp, roundSpec, isIntegerTy, jsRound, toFixed4]

/-- **C2 — counterexample.**  For the numeric ControlSpec with `min = 0`,
`max = 1/2` and step `1`, `updateOption` on the parsable input `"3"` (a value
above `max`) stores `1`, not the bound `1/2`: the code stores the *rounding*
of the clamped value, so "any value above `b` stores `b`" is false as
stated. -/
theorem updateOption_clamp_counterexample :
    jsGet (updateOption cexBuilder "k" (.str "3")).currentOptions "k"
      = some (.num 1) ∧ ((1 : ℚ) ≠ 1/2) ∧ ((1/2 : ℚ) < 3) := by
  refine ⟨?_, by norm_num, by norm_num⟩
  have hv : cexBuilder.valid = true := by decide
  have hc : cexBuilder.hasCanvas = true := by decide
  have ht : cexBuilder.currentType = some "FX" := by decide
  have hreg : regGet cexBuilder.registry "FX" = some cexDesc := rfl
  have hstored : jsGet cexBuilder.currentOptions "k" = none := rfl
  have hfind : cexDesc.schema.find? (fun s => s.key = "k") = some cexSpec := rfl
  have hpv : processOptionValue (cexDesc.schema.find? (fun s => s.key = "k"))
      (jsGet cexDesc.defaults "k") (jsGet cexBuilder.currentOptions "k")
      (.str "3") = some (.num 1) := by
    rw [hfind, processOptionValue_number cexSpec _ _ _ rfl,
      coerceNumber_parsable cexSpec _ _ 3 (by decide) parseRaw_str_three,
      processNumeric_cexSpec_three]
  obtain ⟨h1, _⟩ := updateOption_stores cexBuilder "k" (.str "3") "FX" cexDesc
    (.num 1) hv hc ht hreg hpv
  rw [h1, jsGet_jsSet_self]

theorem parseRaw_str_five : parseRaw (.str "5") = some 5 := by
  have h : jsParseParts (jsTrim "5") = some (false, ['5'], [], 0) := by decide
  have h1 : digitsVal ['5'] = 5 := by decide
  simp [parseRaw, jsParseFloat, h, h1, digitsVal]

theorem parseRaw_str_fiveThousand : parseRaw (.str "5000") = some 5000 := by
  have h : jsParseParts (jsTrim "5000") = some (false, ['5', '0', '0', '0'], [], 0) := by
    decide
  have h1 : digitsVal ['5', '0', '0', '0'] = 5000 := by decide
  simp [parseRaw, jsParseFloat, h, h1, digitsVal]

theorem parseRaw_str_threeSeven : parseRaw (.str "3.7") = some (37/10) := by
  have h : jsParseParts (jsTrim "3.7") = some (false, ['3'], ['7'], 0) := by decide
  have h1 : digitsVal ['3'] = 3 := by decide
  have h2 : digitsVal ['7'] = 7 := by decide
  simp [jsParseFloat, parseRaw, h, h1, h2]
  norm_num

theorem parseRaw_str_decimals : parseRaw (.str "0.12345") = some (12345/100000) := by
  have h : jsParseParts (jsTrim "0.12345")
      = some (false, ['0'], ['1', '2', '3', '4', '5'], 0) := by decide
  have h1 : digitsVal ['0'] = 0 := by decide
  have h2 : digitsVal ['1', '2', '3', '4', '5'] = 12345 := by decide
  simp [jsParseFloat, parseRaw, h, h1, h2]
  norm_num

theorem parseRaw_str_abc : parseRaw (.str "abc") = none := by
  have h : jsParseParts (jsTrim "abc") = none := by decide
  simp [parseRaw, jsParseFloat, h]

/-- **C2 — amended claim.**  For a numeric ControlSpec with `min = a` and
`max = b`, a parsable value is stored as the clamp to `[a, b]` *followed by
the spec's rounding*: a value above `b` stores the rounding of `b`, a value
below `a` stores the rounding of `a` (equal to `b`, resp. `a`, whenever the
bound is a fixed point of the rounding), an in-range value stores its own
rounding, the stored value is a fixed point (clamping-and-rounding is
idempotent), and feeding the stored value back through `updateOption` stores
it unchanged. -/
theorem updateOption_clamp_round_amended
    (bld : Builder) (key : String) (value : JSVal) (t : String) (d : Descriptor)
    (spec : ControlSpec) (q a bmax : ℚ)
    (hv : bld.valid = true) (hc : bld.hasCanvas = true)
    (ht : bld.currentType = some t) (hreg : regGet bld.registry t = some d)
    (hfind : d.schema.find? (fun s => s.key = key) = some spec)
    (htype : spec.type = "number")
    (hmin : spec.min = some a) (hmax : spec.max = some bmax) (hab : a ≤ bmax)
    (hne : rawStrIsEmpty value = false) (hp : parseRaw value = some q) :
    jsGet (updateOption bld key value).currentOptions key
        = some (.num (processNumeric spec q)) ∧
    (bmax < q → processNumeric spec q = roundSpec spec bmax) ∧
    (q < a → processNumeric spec q = roundSpec spec a) ∧
    (a ≤ q → q ≤ bmax → processNumeric spec q = roundSpec spec q) ∧
    processNumeric spec (processNumeric spec q) = processNumeric spec q ∧
    jsGet (updateOption (updateOption bld key value) key
        (.num (processNumeric spec q))).currentOptions key
      = some (.num (processNumeric spec q)) := by
  have hpv : processOptionValue (d.schema.find? (fun s => s.key = key))
      (jsGet d.defaults key) (jsGet bld.currentOptions key) value
      = some (.num (processNumeric spec q)) := by
    rw [hfind, processOptionValue_number spec _ _ _ htype,
      coerceNumber_parsable spec _ _ q hne hp]
  obtain ⟨h1, h2, h3, h4, h5, _⟩ :=
    updateOption_stores bld key value t d _ hv hc ht hreg hpv
  refine ⟨by rw [h1, jsGet_jsSet_self], ?_, ?_, ?_, ?_, ?_⟩
  · exact fun hq => processNumeric_above_max spec a bmax hmin hmax hab hq
  · exact fun hq => processNumeric_below_min spec a bmax hmin hmax hab hq
  · exact fun ha hb => processNumeric_in_range spec a bmax hmin hmax ha hb
  · exact processNumeric_idem spec a bmax hmin hmax hab q
  · set bld1 := updateOption bld key value with hbld1
    have hreg1 : regGet bld1.registry t = some d := by rw [h3]; exact hreg
    have hpv2 : processOptionValue (d.schema.find? (fun s => s.key = key))
        (jsGet d.defaults key) (jsGet bld1.currentOptions key)
        (.num (processNumeric spec q)) = some (.num (processNumeric spec q)) := by
      rw [hfind, processOptionValue_number spec _ _ _ htype,
        coerceNumber_parsable spec (jsGet bld1.currentOptions key)
          (.num (processNumeric spec q)) (processNumeric spec q) rfl rfl,
        processNumeric_idem spec a bmax hmin hmax hab q]
    obtain ⟨g1, _⟩ := updateOption_stores bld1 key (.num (processNumeric spec q))
      t d _ h4 h5 h2 hreg1 hpv2
    rw [g1, jsGet_jsSet_self]

/-- The Starfield `starCount` spec shape used for the C2 witness. -/
def wSpec : ControlSpec :=
  { key := "starCount", type := "number", min := some 50, max := some 2000,
    step := some 50 }

/-- Registry entry carrying `wSpec`. -/
def wDesc : Descriptor := { cls := {}, defaults := [], schema := [wSpec] }

/-- A valid builder with `wDesc` registered and selected. -/
def wBuilder : Builder :=
  selectBackground (registerBackground (initBuilder []) "SF" wDesc) "SF" none

theorem updateOption_clamp_round_amended_witness :
    (50 : ℚ) ≤ 2000 ∧
    jsGet (updateOption wBuilder "starCount" (.str "5000")).currentOptions
        "starCount" = some (.num (processNumeric wSpec 5000)) :=
  ⟨by norm_num,
    (updateOption_clamp_round_amended wBuilder "starCount" (.str "5000") "SF"
      wDesc wSpec 5000 50 2000 (by decide) (by decide) (by decide) rfl rfl rfl
      rfl rfl (by norm_num) (by decide) parseRaw_str_fiveThousand).1⟩

/-! ## C3: rounding rule (counterexample, amended theorem, witness) -/
/-- Step-0 spec for the C3 counterexample. -/
def c3aSpec : ControlSpec := { key := "k", type := "number", step := some 0 }

/-- Registry entry carrying `c3aSpec`. -/
def c3aDesc : Descriptor := { cls := {}, defaults := [], schema := [c3aSpec] }

/-- Builder with `c3aDesc` selected. -/
def c3aBuilder : Builder :=
  selectBackground (registerBackground (initBuilder []) "FX" c3aDesc) "FX" none

/-- Unspecified-step spec with a fractional `max` for the C3 counterexample. -/
def c3bSpec : ControlSpec := { key := "k", type := "number", max := some (4001/2) }

/-- Registry entry carrying `c3bSpec`. -/
def c3bDesc : Descriptor := { cls := {}, defaults := [], schema := [c3bSpec] }

/-- Builder with `c3bDesc` selected. -/
def c3bBuilder : Builder :=
  selectBackground (registerBackground (initBuilder []) "FX" c3bDesc) "FX" none

/-- **C3 — counterexample.**  The claimed rule "integer rounding exactly when
the step is an integer ≥ 1, or the step is unspecified and the parsed value
has no fractional part" fails twice: (a) with `step = 0` (neither an integer
≥ 1 nor unspecified) the input `"3.7"` is stored integer-rounded as `4`
rather than 4-decimal-rounded as `3.7`; (b) with an unspecified step and
`max = 2000.5`, the parsed value `5000` has no fractional part, yet the
stored value is the non-integer `2000.5` (the dot test runs on the *clamped*
value). -/
theorem updateOption_rounding_counterexample :
    (jsGet (updateOption c3aBuilder "k" (.str "3.7")).currentOptions "k"
        = some (.num 4) ∧
      toFixed4 (37/10) = 37/10 ∧ (4 : ℚ) ≠ 37/10 ∧
      ¬(((0 : ℚ).den = 1 ∧ (1 : ℚ) ≤ 0) ∨ (some (0 : ℚ) = none))) ∧
    (jsGet (updateOption c3bBuilder "k" (.str "5000")).currentOptions "k"
        = some (.num (4001/2)) ∧
      (5000 : ℚ).den = 1 ∧ ((4001 : ℚ)/2).den ≠ 1) := by
  constructor
  · refine ⟨?_, by norm_num [toFixed4], by norm_num, by rw [not_or]; exact ⟨by norm_num, by simp⟩⟩
    have hpv : processOptionValue (c3aDesc.schema.find? (fun s => s.key = "k"))
        (jsGet c3aDesc.defaults "k") (jsGet c3aBuilder.currentOptions "k")
        (.str "3.7") = some (.num 4) := by
      rw [show c3aDesc.schema.find? (fun s => s.key = "k") = some c3aSpec from rfl,
        processOptionValue_number c3aSpec _ _ _ rfl,
        coerceNumber_parsable c3aSpec _ _ (37/10) (by decide) parseRaw_str_threeSeven,
        show processNumeric c3aSpec (37/10) = 4 by
          norm_num [processNumeric, c3aSpec, jsClamp, roundSpec, isIntegerTy, jsRound]]
    obtain ⟨h1, _⟩ := updateOption_stores c3aBuilder "k" (.str "3.7") "FX" c3aDesc
      (.num 4) (by decide) (by decide) (by decide) rfl hpv
    rw [h1, jsGet_jsSet_self]
  · refine ⟨?_, by norm_num, by norm_num⟩
    have hpv : processOptionValue (c3bDesc.schema.find? (fun s => s.key = "k"))
        (jsGet c3bDesc.defaults "k") (jsGet c3bBuilder.currentOptions "k")
        (.str "5000") = some (.num (4001/2)) := by
      rw [show c3bDesc.schema.find? (fun s => s.key = "k") = some c3bSpec from rfl,
        processOptionValue_number c3bSpec _ _ _ rfl,
        coerceNumber_parsable c3bSpec _ _ 5000 (by decide) parseRaw_str_fiveThousand,
        show processNumeric c3bSpec 5000 = 4001/2 by
          norm_num [processNumeric, c3bSpec, jsClamp, roundSpec, isIntegerTy, toFixed4]]
    obtain ⟨h1, _⟩ := updateOption_stores c3bBuilder "k" (.str "5000") "FX" c3bDesc
      (.num (4001/2)) (by decide) (by decide) (by decide) rfl hpv
    rw [h1, jsGet_jsSet_self]

/-- **C3 — amended claim.**  For a parsable input, the stored value is the
clamp post-processed by integer rounding exactly when the step is an integer
≥ 1 *or zero*, or the step is unspecified and the *clamped* value has no
fractional part; otherwise by 4-decimal rounding (`parseFloat(x.toFixed(4))`).
In particular step `1`, input `"3.7"` stores `4`, and step `0.01`, input
`"0.12345"` stores `0.1235` (see the witness). -/
theorem updateOption_rounding_amended
    (bld : Builder) (key : String) (value : JSVal) (t : String) (d : Descriptor)
    (spec : ControlSpec) (q : ℚ)
    (hv : bld.valid = true) (hc : bld.hasCanvas = true)
    (ht : bld.currentType = some t) (hreg : regGet bld.registry t = some d)
    (hfind : d.schema.find? (fun s => s.key = key) = some spec)
    (htype : spec.type = "number")
    (hne : rawStrIsEmpty value = false) (hp : parseRaw value = some q) :
    jsGet (updateOption bld key value).currentOptions key
        = some (.num (if isIntegerTy spec.step (jsClamp spec.min spec.max q)
            then jsRound (jsClamp spec.min spec.max q)
            else toFixed4 (jsClamp spec.min spec.max q))) ∧
    (isIntegerTy spec.step (jsClamp spec.min spec.max q) = true ↔
      (∃ s, spec.step = some s ∧ ((s.den = 1 ∧ 1 ≤ s) ∨ s = 0)) ∨
        (spec.step = none ∧ (jsClamp spec.min spec.max q).den = 1)) := by
  have hpv : processOptionValue (d.schema.find? (fun s => s.key = key))
      (jsGet d.defaults key) (jsGet bld.currentOptions key) value
      = some (.num (processNumeric spec q)) := by
    rw [hfind, processOptionValue_number spec _ _ _ htype,
      coerceNumber_parsable spec _ _ q hne hp]
  obtain ⟨h1, _⟩ := updateOption_stores bld key value t d _ hv hc ht hreg hpv
  constructor
  · rw [h1, jsGet_jsSet_self]
    rfl
  · unfold isIntegerTy
    cases hs : spec.step with
    | none => simp
    | some s => simp

/-- Step-1 spec for the C3 witness. -/
def c3cSpec : ControlSpec := { key := "k", type := "number", step := some 1 }

/-- Registry entry carrying `c3cSpec`. -/
def c3cDesc : Descriptor := { cls := {}, defaults := [], schema := [c3cSpec] }

/-- Builder with `c3cDesc` selected. -/
def c3cBuilder : Builder :=
  selectBackground (registerBackground (initBuilder []) "FX" c3cDesc) "FX" none

/-- Step-0.01 spec for the C3 witness. -/
def c3dSpec : ControlSpec := { key := "k", type := "number", step := some (1/100) }

/-- Registry entry carrying `c3dSpec`. -/
def c3dDesc : Descriptor := { cls := {}, defaults := [], schema := [c3dSpec] }

/-- Builder with `c3dDesc` selected. -/
def c3dBuilder : Builder :=
  selectBackground (registerBackground (initBuilder []) "FX" c3dDesc) "FX" none

theorem updateOption_rounding_amended_witness :
    rawStrIsEmpty (JSVal.str "3.7") = false ∧
    jsGet (updateOption c3cBuilder "k" (.str "3.7")).currentOptions "k"
      = some (.num 4) ∧
    jsGet (updateOption c3dBuilder "k" (.str "0.12345")).currentOptions "k"
      = some (.num (1235/10000)) := by
  refine ⟨by decide, ?_, ?_⟩
  · have h := (updateOption_rounding_amended c3cBuilder "k" (.str "3.7") "FX"
      c3cDesc c3cSpec (37/10) (by decide) (by decide) (by decide) rfl rfl rfl
      (by decide) parseRaw_str_threeSeven).1
    rw [h]
    norm_num [c3cSpec, jsClamp, isIntegerTy, jsRound]
  · have h := (updateOption_rounding_amended c3dBuilder "k" (.str "0.12345") "FX"
      c3dDesc c3dSpec (12345/100000) (by decide) (by decide) (by decide) rfl rfl
      rfl (by decide) parseRaw_str_decimals).1
    rw [h]
    norm_num [c3dSpec, jsClamp, isIntegerTy, toFixed4]

/-! ## C4: list-valued text coercion (theorem, witness) -/
theorem processOptionValue_text_list (spec : ControlSpec) (dv stored : Option JSVal)
    (value : JSVal) (htype : spec.type = "text") (hlist : isListVal dv = true) :
    processOptionValue (some spec) dv stored value = some (coerceTextArray value) := by
  unfold processOptionValue
  simp [htype, hlist]

/-- **C4.**  For a text ControlSpec whose descriptor default for the key is an
array, `updateOption` on a string splits it on commas, trims each segment and
drops the empty ones; an all-whitespace input stores the empty list, a
non-empty split stores the trimmed list, and a split that yields nothing
useful (e.g. only commas) keeps the raw string as a scalar fallback. -/
theorem updateOption_text_list_coercion
    (bld : Builder) (key : String) (s : String) (t : String) (d : Descriptor)
    (spec : ControlSpec) (ds : List String)
    (hv : bld.valid = true) (hc : bld.hasCanvas = true)
    (ht : bld.currentType = some t) (hreg : regGet bld.registry t = some d)
    (hfind : d.schema.find? (fun sp => sp.key = key) = some spec)
    (htype : spec.type = "text")
    (hdef : jsGet d.defaults key = some (.list ds)) :
    jsGet (updateOption bld key (.str s)).currentOptions key
        = some (coerceTextArray (.str s)) ∧
    (jsTrim s = "" → coerceTextArray (.str s) = .list []) ∧
    (jsTrim s ≠ "" → ((jsSplitComma s).map jsTrim).filter (· ≠ "") ≠ [] →
      coerceTextArray (.str s)
        = .list (((jsSplitComma s).map jsTrim).filter (· ≠ ""))) ∧
    (jsTrim s ≠ "" → ((jsSplitComma s).map jsTrim).filter (· ≠ "") = [] →
      coerceTextArray (.str s) = .str s) := by
  have hpv : processOptionValue (d.schema.find? (fun sp => sp.key = key))
      (jsGet d.defaults key) (jsGet bld.currentOptions key) (.str s)
      = some (coerceTextArray (.str s)) := by
    rw [hfind, hdef, processOptionValue_text_list spec (some (.list ds))
      (jsGet bld.currentOptions key) (.str s) htype rfl]
  obtain ⟨h1, _⟩ := updateOption_stores bld key (.str s) t d _ hv hc ht hreg hpv
  refine ⟨by rw [h1, jsGet_jsSet_self], ?_, ?_, ?_⟩
  · intro he
    unfold coerceTextArray
    simp [he]
  · intro he hp
    unfold coerceTextArray
    dsimp only
    rw [if_neg he, if_pos hp]
  · intro he hp
    unfold coerceTextArray
    dsimp only
    rw [if_neg he, if_neg (fun hh => hh hp)]

/-- Text ControlSpec with an array default, for the C4 witness. -/
def c4Spec : ControlSpec := { key := "colors", type := "text" }

/-- Registry entry whose defaults hold an array at `"colors"`. -/
def c4Desc : Descriptor :=
  { cls := {}, defaults := [("colors", .list ["white"])], schema := [c4Spec] }

/-- Builder with `c4Desc` selected. -/
def c4Builder : Builder :=
  selectBackground (registerBackground (initBuilder []) "FX" c4Desc) "FX" none

theorem updateOption_text_list_coercion_witness :
    c4Spec.type = "text" ∧
    jsGet (updateOption c4Builder "colors" (.str "red, green ,blue")).currentOptions
        "colors" = some (.list ["red", "green", "blue"]) ∧
    jsGet (updateOption c4Builder "colors" (.str "")).currentOptions "colors"
      = some (.list []) := by
  refine ⟨rfl, ?_, ?_⟩
  · have h := (updateOption_text_list_coercion c4Builder "colors"
      "red, green ,blue" "FX" c4Desc c4Spec ["white"] (by decide) (by decide)
      (by decide) rfl rfl rfl rfl).1
    rw [h]
    decide
  · have h := (updateOption_text_list_coercion c4Builder "colors" "" "FX"
      c4Desc c4Spec ["white"] (by decide) (by decide) (by decide) rfl rfl rfl
      rfl).1
    rw [h]
    decide

/-! ## C5: unparsable numeric fallback (counterexample, amended theorem, witness) -/
/-- Numeric spec with a declared default, for the C5 counterexample. -/
def c5Spec : ControlSpec :=
  { key := "k", type := "number", min := some 0, max := some 10,
    step := some 1, default := some 7 }

/-- Registry entry carrying `c5Spec`. -/
def c5Desc : Descriptor := { cls := {}, defaults := [], schema := [c5Spec] }

/-- Builder with `c5Desc` selected and prior stored value `5` for `"k"`. -/
def c5Builder : Builder :=
  selectBackground (registerBackground (initBuilder []) "FX" c5Desc) "FX"
    (some [("k", .num 5)])

/-- **C5 — counterexample.**  The empty string parses to `NaN`
(`parseFloat("")` is `NaN`), yet `updateOption` does *not* revert to the
previously stored value `5`: the empty-input branch substitutes the schema
default first, storing `7`. -/
theorem updateOption_revert_counterexample :
    jsParseFloat (jsTrim "") = none ∧
    jsGet c5Builder.currentOptions "k" = some (.num 5) ∧
    jsGet (updateOption c5Builder "k" (.str "")).currentOptions "k"
      = some (.num 7) ∧
    JSVal.num 7 ≠ JSVal.num 5 := by
  refine ⟨by decide, rfl, ?_, by simp⟩
  have hpv : processOptionValue (c5Desc.schema.find? (fun sp => sp.key = "k"))
      (jsGet c5Desc.defaults "k") (jsGet c5Builder.currentOptions "k")
      (.str "") = some (.num 7) := by
    rw [show c5Desc.schema.find? (fun sp => sp.key = "k") = some c5Spec from rfl,
      processOptionValue_number c5Spec _ _ _ rfl]
    unfold coerceNumber
    rw [show rawStrIsEmpty (.str "") = true from by decide]
    simp only [if_true]
    show some (JSVal.num (processNumeric c5Spec 7)) = some (.num 7)
    rw [show processNumeric c5Spec 7 = 7 by
      norm_num [processNumeric, c5Spec, jsClamp, roundSpec, isIntegerTy, jsRound]]
  obtain ⟨h1, _⟩ := updateOption_stores c5Builder "k" (.str "") "FX" c5Desc
    (.num 7) (by decide) (by decide) (by decide) rfl hpv
  rw [h1, jsGet_jsSet_self]

/-- **C5 — amended claim.**  For a numeric ControlSpec, an unparsable value
never throws; *except* when the trimmed input is the empty string and the
spec declares a default (then the parsed default, clamped and rounded, is
stored — the counterexample), the code stores the previously stored value
when one exists, and otherwise the spec default re-clamped and re-rounded. -/
theorem updateOption_unparsable_fallback_amended
    (bld : Builder) (key : String) (value : JSVal) (t : String) (d : Descriptor)
    (spec : ControlSpec)
    (hv : bld.valid = true) (hc : bld.hasCanvas = true)
    (ht : bld.currentType = some t) (hreg : regGet bld.registry t = some d)
    (hfind : d.schema.find? (fun sp => sp.key = key) = some spec)
    (htype : spec.type = "number")
    (hp : parseRaw value = none)
    (hexc : ¬(rawStrIsEmpty value = true ∧ spec.default.isSome = true)) :
    (∀ v0, jsGet bld.currentOptions key = some v0 →
      jsGet (updateOption bld key value).currentOptions key = some v0) ∧
    (jsGet bld.currentOptions key = none → ∀ dq, spec.default = some dq →
      jsGet (updateOption bld key value).currentOptions key
        = some (.num (processDefault spec dq))) := by
  have hparsed : (if rawStrIsEmpty value then spec.default else parseRaw value)
      = (none : Option ℚ) := by
    by_cases hre : rawStrIsEmpty value = true
    · rcases hd : spec.default with _ | dq
      · simp [hre, hd]
      · exact absurd ⟨hre, by simp [hd]⟩ hexc
    · simp only [Bool.not_eq_true] at hre
      simp [hre, hp]
  constructor
  · intro v0 hstored
    have hpv : processOptionValue (d.schema.find? (fun sp => sp.key = key))
        (jsGet d.defaults key) (jsGet bld.currentOptions key) value
        = some v0 := by
      rw [hfind, processOptionValue_number spec _ _ _ htype]
      unfold coerceNumber
      rw [hparsed, hstored]
    obtain ⟨h1, _⟩ := updateOption_stores bld key value t d _ hv hc ht hreg hpv
    rw [h1, jsGet_jsSet_self]
  · intro hstored dq hdq
    have hpv : processOptionValue (d.schema.find? (fun sp => sp.key = key))
        (jsGet d.defaults key) (jsGet bld.currentOptions key) value
        = some (.num (processDefault spec dq)) := by
      rw [hfind, processOptionValue_number spec _ _ _ htype]
      unfold coerceNumber
      rw [hparsed, hstored, hdq]
    obtain ⟨h1, _⟩ := updateOption_stores bld key value t d _ hv hc ht hreg hpv
    rw [h1, jsGet_jsSet_self]

theorem updateOption_unparsable_fallback_amended_witness :
    parseRaw (.str "abc") = none ∧
    jsGet c5Builder.currentOptions "k" = some (.num 5) ∧
    jsGet (updateOption c5Builder "k" (.str "abc")).currentOptions "k"
      = some (.num 5) :=
  ⟨parseRaw_str_abc, rfl,
    (updateOption_unparsable_fallback_amended c5Builder "k" (.str "abc") "FX"
      c5Desc c5Spec (by decide) (by decide) (by decide) rfl rfl rfl
      parseRaw_str_abc (by decide)).1 (.num 5) rfl⟩

/-! ## C10: unparsable input with no fallback is a no-op (theorem, witness) -/
/-- **C10.**  An unparsable numeric input with no previously stored value and
no schema default makes `updateOption` return before mutating anything: the
whole builder state — Option Set, notification list, trace and instance —
is unchanged. -/
theorem updateOption_unparsable_no_fallback_noop
    (bld : Builder) (key : String) (value : JSVal) (t : String) (d : Descriptor)
    (spec : ControlSpec)
    (hv : bld.valid = true) (hc : bld.hasCanvas = true)
    (ht : bld.currentType = some t) (hreg : regGet bld.registry t = some d)
    (hfind : d.schema.find? (fun sp => sp.key = key) = some spec)
    (htype : spec.type = "number")
    (hp : parseRaw value = none)
    (hstored : jsGet bld.currentOptions key = none)
    (hdef : spec.default = none) :
    updateOption bld key value = bld := by
  have hpv : processOptionValue (d.schema.find? (fun sp => sp.key = key))
      (jsGet d.defaults key) (jsGet bld.currentOptions key) value = none := by
    rw [hfind, processOptionValue_number spec _ _ _ htype]
    unfold coerceNumber
    rw [hstored]
    cases hre : rawStrIsEmpty value <;> simp [hdef, hp]
  unfold updateOption
  simp only [hv, hc, ht, hreg, hpv, eq_self_iff_true, and_self, not_true,
    ite_false]

theorem updateOption_unparsable_no_fallback_noop_witness :
    parseRaw (.str "abc") = none ∧
    jsGet cexBuilder.currentOptions "k" = none ∧
    cexSpec.default = none ∧
    updateOption cexBuilder "k" (.str "abc") = cexBuilder :=
  ⟨parseRaw_str_abc, rfl, rfl,
    updateOption_unparsable_no_fallback_noop cexBuilder "k" (.str "abc") "FX"
      cexDesc cexSpec (by decide) (by decide) (by decide) rfl rfl rfl
      parseRaw_str_abc rfl rfl⟩

/-! ## C7: constructor failure aborts selection (theorem, witness) -/
theorem startOrDraw_instance_keeps (b : Builder) (i : EffectInstance)
    (h : b.currentInstance = some i) :
    ∃ j, (startOrDraw b).currentInstance = some j ∧ j.cls = i.cls ∧ j.id = i.id := by
  unfold startOrDraw
  rw [h]
  dsimp only
  split
  · exact ⟨_, rfl, rfl, rfl⟩
  · split
    · exact ⟨i, rfl, rfl, rfl⟩
    · exact ⟨i, h, rfl, rfl⟩

/-- A selection of a registered effect whose constructor does not throw
creates a fresh instance of that effect's class. -/
theorem selectBackground_success (b : Builder) (name : String)
    (opts : Option (List (String × JSVal))) (d : Descriptor)
    (hv : b.valid = true) (hc : b.hasCanvas = true)
    (hx : b.hasCtx = true) (hcc : b.hasControls = true)
    (hreg : regGet b.registry name = some d) (hok : d.cls.ctorThrows = false) :
    ∃ i, (selectBackground b name opts).currentInstance = some i ∧
      i.cls = d.cls ∧ i.id = b.nextId ∧
      (selectBackground b name opts).currentType = some name := by
  unfold selectBackground
  simp only [hv, hc, hx, hcc, eq_self_iff_true, and_self, not_true, ite_false,
    hreg]
  rw [if_neg (by rw [hok]; exact Bool.false_ne_true)]
  obtain ⟨j, hj, hjc, hji⟩ := startOrDraw_instance_keeps
    { valid := true, hasCanvas := true, hasCtx := true, hasControls := true,
      registry := b.registry, currentType := some name,
      currentOptions := opts.getD d.defaults,
      currentInstance := some ⟨b.nextId, d.cls, false⟩,
      nextId := b.nextId + 1,
      trace := (b.trace ++ (match b.currentInstance with
        | some i => teardownEvents i
        | none => [])) ++ [.create b.nextId],
      notifications := b.notifications, controls := .rendered }
    ⟨b.nextId, d.cls, false⟩ rfl
  refine ⟨j, hj, hjc, hji.trans rfl, ?_⟩
  rw [startOrDraw_currentType]

/-- **C7.**  If the effect constructor throws during `selectBackground`, the
selection aborts: an inline error message replaces the controls area, the
builder is left in the Empty state (no instance, no current type) but stays
valid, and a later `selectBackground` of a registered non-throwing effect
creates an instance of that effect. -/
theorem select_ctor_failure_aborts
    (bld : Builder) (name : String) (opts : Option (List (String × JSVal)))
    (d : Descriptor)
    (hv : bld.valid = true) (hc : bld.hasCanvas = true)
    (hx : bld.hasCtx = true) (hcc : bld.hasControls = true)
    (hreg : regGet bld.registry name = some d) (hthrow : d.cls.ctorThrows = true) :
    (selectBackground bld name opts).currentInstance = none ∧
    (selectBackground bld name opts).currentType = none ∧
    (selectBackground bld name opts).valid = true ∧
    (selectBackground bld name opts).controls = .errorText ∧
    (∀ name2 d2 opts2,
      regGet (selectBackground bld name opts).registry name2 = some d2 →
      d2.cls.ctorThrows = false →
      ∃ i, (selectBackground (selectBackground bld name opts) name2
          opts2).currentInstance = some i ∧ i.cls = d2.cls ∧
        (selectBackground (selectBackground bld name opts) name2
          opts2).currentType = some name2) := by
  have hsel : selectBackground bld name opts
      = { bld with
            trace := bld.trace ++ (match bld.currentInstance with
              | some i => teardownEvents i
              | none => []),
            currentInstance := none, currentType := none,
            currentOptions := opts.getD d.defaults,
            controls := .errorText } := by
    unfold selectBackground
    simp only [hv, hc, hx, hcc, hreg, hthrow]
    simp
  refine ⟨by rw [hsel], by rw [hsel], by rw [hsel]; exact hv, by rw [hsel], ?_⟩
  intro name2 d2 opts2 hreg2 hok2
  obtain ⟨i, hi, hic, _, hty⟩ := selectBackground_success
    (selectBackground bld name opts) name2 opts2 d2
    (by rw [hsel]; exact hv) (by rw [hsel]; exact hc) (by rw [hsel]; exact hx)
    (by rw [hsel]; exact hcc) hreg2 hok2
  exact ⟨i, hi, hic, hty⟩

/-- A descriptor whose constructor throws. -/
def c7BadDesc : Descriptor := { cls := { ctorThrows := true }, defaults := [], schema := [] }

/-- A well-behaved descriptor. -/
def c7GoodDesc : Descriptor := { cls := {}, defaults := [], schema := [] }

/-- Builder with both registered. -/
def c7Builder : Builder :=
  registerBackground (registerBackground (initBuilder []) "Bad" c7BadDesc)
    "Good" c7GoodDesc

theorem select_ctor_failure_aborts_witness :
    c7BadDesc.cls.ctorThrows = true ∧
    (selectBackground c7Builder "Bad" none).currentInstance = none ∧
    (selectBackground c7Builder "Bad" none).currentType = none ∧
    (selectBackground c7Builder "Bad" none).valid = true ∧
    (selectBackground c7Builder "Bad" none).controls = .errorText ∧
    (∃ i, (selectBackground (selectBackground c7Builder "Bad" none) "Good"
        none).currentInstance = some i ∧ i.cls = c7GoodDesc.cls ∧
      (selectBackground (selectBackground c7Builder "Bad" none) "Good"
        none).currentType = some "Good") := by
  obtain ⟨h1, h2, h3, h4, h5⟩ := select_ctor_failure_aborts c7Builder "Bad"
    none c7BadDesc (by decide) (by decide) (by decide) (by decide) rfl rfl
  exact ⟨rfl, h1, h2, h3, h4, h5 "Good" c7GoodDesc none (by decide) rfl⟩

/-! ## C9: destroyed builder honours no further operations -/
/-- **C9.**  After the builder's own `destroy()`, the builder is permanently
invalid: registry and Option Set are cleared, no instance is referenced, and
every later `registerBackground` / `selectBackground` / `updateOption` (in
any order and number) leaves the state completely unchanged. -/
theorem destroy_permanently_invalid (bld : Builder) (ops : List Op) :
    runOps (destroyBuilder bld) ops = destroyBuilder bld ∧
    (destroyBuilder bld).valid = false ∧
    (destroyBuilder bld).registry = [] ∧
    (destroyBuilder bld).currentOptions = [] ∧
    (destroyBuilder bld).currentInstance = none := by
  have hval : (destroyBuilder bld).valid = false := rfl
  have hstep : ∀ op, stepOp (destroyBuilder bld) op = destroyBuilder bld := by
    intro op
    cases op with
    | register name d =>
      show registerBackground (destroyBuilder bld) name d = destroyBuilder bld
      unfold registerBackground
      rw [hval]
      simp
    | select name o =>
      show selectBackground (destroyBuilder bld) name o = destroyBuilder bld
      unfold selectBackground
      rw [if_pos]
      rw [hval]
      simp
    | update k v =>
      show updateOption (destroyBuilder bld) k v = destroyBuilder bld
      unfold updateOption
      rw [if_pos]
      rw [hval]
      simp
  have hrun : ∀ l, runOps (destroyBuilder bld) l = destroyBuilder bld := by
    intro l
    induction l with
    | nil => rfl
    | cons o t ih =>
      show runOps (stepOp (destroyBuilder bld) o) t = destroyBuilder bld
      rw [hstep o]
      exact ih
  exact ⟨hrun ops, hval, rfl, rfl, rfl⟩

/-! ### C1 infrastructure: live instances along the event trace -/

/-- Effect of one trace event on the set of live instance ids: `create`
brings an instance to life, `destroy()`/`stop()` tears it down; the other
calls do not change liveness. -/
def liveApply (l : List ℕ) : Event → List ℕ
  | .create id => id :: l
  | .destroyCall id => l.erase id
  | .stopCall id => l.erase id
  | _ => l

/-- The ids of instances alive after a trace. -/
def liveAfter (tr : List Event) : List ℕ := tr.foldl liveApply []

/-- The id list held by the builder's instance reference. -/
def optIds : Option EffectInstance → List ℕ
  | some i => [i.id]
  | none => []

/-- An effect class honouring the lifecycle contract: it has `destroy` or at
least `stop`, so the builder's teardown really reaches it. -/
def contractualCls (c : ClassDesc) : Prop := c.hasDestroy = true ∨ c.hasStop = true

/-- Events that never change liveness, for any prefix. -/
def NeutralEvents (es : List Event) : Prop :=
  ∀ l n, ((es.take n).foldl liveApply l) = l

theorem neutralEvents_nil : NeutralEvents [] := by
  intro l n
  simp

theorem neutralEvents_single (e : Event) (h : ∀ l, liveApply l e = l) :
    NeutralEvents [e] := by
  intro l n
  cases n with
  | zero => rfl
  | succ m => simp [List.take, h]

theorem liveAfter_append (tr es : List Event) :
    liveAfter (tr ++ es) = es.foldl liveApply (liveAfter tr) := by
  unfold liveAfter
  rw [List.foldl_append]

theorem take_append_foldl (es1 es2 : List Event) (l : List ℕ) (n : ℕ) :
    (((es1 ++ es2).take n).foldl liveApply l)
      = ((es2.take (n - es1.length)).foldl liveApply
          ((es1.take n).foldl liveApply l)) := by
  rw [List.take_append_eq_append_take, List.foldl_append]

theorem foldl_take_single (e : Event) (l : List ℕ) (n : ℕ) :
    (([e].take n).foldl liveApply l) = if n = 0 then l else liveApply l e := by
  cases n with
  | zero => rfl
  | succ m => simp [List.take]

/-- Under the contract, teardown is exactly one `destroy`/`stop` call, and it
removes the instance's id from the live set. -/
theorem teardown_shape (i : EffectInstance) (hc : contractualCls i.cls) :
    ∃ e, teardownEvents i = [e] ∧ ∀ l, liveApply l e = l.erase i.id := by
  unfold teardownEvents
  by_cases hd : i.cls.hasDestroy = true
  · exact ⟨.destroyCall i.id, by rw [if_pos hd], fun l => rfl⟩
  · rcases hc with h | h
    · exact absurd h hd
    · refine ⟨.stopCall i.id, ?_, fun l => rfl⟩
      rw [if_neg hd, if_pos h]

/-- The at-most-one-live invariant carried through every builder state. -/
structure BuilderInv (b : Builder) : Prop where
  live_eq : liveAfter b.trace = optIds b.currentInstance
  prefix_le : ∀ n, (liveAfter (b.trace.take n)).length ≤ 1
  reg_ok : ∀ p ∈ b.registry, contractualCls p.2.cls
  inst_ok : ∀ i, b.currentInstance = some i → contractualCls i.cls

theorem optIds_length_le (o : Option EffectInstance) : (optIds o).length ≤ 1 := by
  cases o <;> simp [optIds]

/-- Rebuild the invariant for a state that extends the trace by a block `es`
whose every prefix keeps the live set small. -/
theorem inv_extend (b b' : Builder) (es : List Event)
    (hreg : b'.registry = b.registry)
    (htr : b'.trace = b.trace ++ es)
    (hlive : es.foldl liveApply (optIds b.currentInstance)
      = optIds b'.currentInstance)
    (hpre : ∀ n, ((es.take n).foldl liveApply
      (optIds b.currentInstance)).length ≤ 1)
    (hinst : ∀ i, b'.currentInstance = some i → contractualCls i.cls)
    (hInv : BuilderInv b) : BuilderInv b' := by
  refine ⟨?_, ?_, ?_, hinst⟩
  · rw [htr, liveAfter_append, hInv.live_eq, hlive]
  · intro n
    rw [htr]
    show (((b.trace ++ es).take n).foldl liveApply []).length ≤ 1
    rw [take_append_foldl]
    rcases le_or_lt n b.trace.length with hn | hn
    · have h0 : n - b.trace.length = 0 := Nat.sub_eq_zero_of_le hn
      rw [h0]
      show (liveAfter (b.trace.take n)).length ≤ 1
      exact hInv.prefix_le n
    · have hfull : b.trace.take n = b.trace := List.take_of_length_le hn.le
      rw [hfull]
      show (((es.take (n - b.trace.length)).foldl liveApply
        (liveAfter b.trace))).length ≤ 1
      rw [hInv.live_eq]
      exact hpre (n - b.trace.length)
  · rw [hreg]
    exact hInv.reg_ok

theorem neutralEvents_append (es1 es2 : List Event)
    (h1 : NeutralEvents es1) (h2 : NeutralEvents es2) :
    NeutralEvents (es1 ++ es2) := by
  intro l n
  show (((es1 ++ es2).take n).foldl liveApply l) = l
  rw [take_append_foldl, h1 l n, h2 l (n - es1.length)]

theorem neutralEvents_foldl (es : List Event) (h : NeutralEvents es)
    (l : List ℕ) : es.foldl liveApply l = l := by
  have := h l es.length
  rwa [List.take_length] at this

/-- `startOrDraw` only appends liveness-neutral events and keeps the
instance reference (up to the `animationId` flag set by `start()`). -/
theorem startOrDraw_shape (b : Builder) :
    ∃ es, NeutralEvents es ∧ (startOrDraw b).trace = b.trace ++ es ∧
      optIds (startOrDraw b).currentInstance = optIds b.currentInstance ∧
      (∀ i', (startOrDraw b).currentInstance = some i' →
        ∃ i, b.currentInstance = some i ∧ i'.cls = i.cls) := by
  unfold startOrDraw
  cases h : b.currentInstance with
  | none =>
    refine ⟨[], neutralEvents_nil, by simp, ?_, ?_⟩
    · show optIds b.currentInstance = optIds none
      rw [h]
    · intro i' hi'
      have hi2 : b.currentInstance = some i' := hi'
      rw [h] at hi2
      cases hi2
  | some i =>
    dsimp only
    by_cases hs : i.cls.hasStart = true
    · rw [if_pos hs]
      refine ⟨[.startCall i.id], neutralEvents_single _ (fun l => rfl), rfl,
        rfl, ?_⟩
      intro i' hi'
      refine ⟨i, rfl, ?_⟩
      have h2 : ({ i with animId := i.cls.startsAnimation } : EffectInstance) = i' :=
        Option.some.inj hi'
      rw [← h2]
    · rw [if_neg hs]
      by_cases hd : i.cls.hasDraw = true
      · rw [if_pos hd]
        refine ⟨[.drawCall i.id], neutralEvents_single _ (fun l => rfl), rfl,
          rfl, ?_⟩
        intro i' hi'
        have h2 : i = i' := Option.some.inj hi'
        exact ⟨i, rfl, by rw [← h2]⟩
      · rw [if_neg hd]
        refine ⟨[], neutralEvents_nil, by simp, ?_, ?_⟩
        · show optIds b.currentInstance = optIds (some i)
          rw [h]
        · intro i' hi'
          have hi2 : b.currentInstance = some i' := hi'
          rw [h] at hi2
          have h2 : i = i' := Option.some.inj hi2
          exact ⟨i, rfl, by rw [← h2]⟩

theorem regGet_contract (reg : List (String × Descriptor))
    (hreg_ok : ∀ p ∈ reg, contractualCls p.2.cls) (name : String)
    (d : Descriptor) (h : regGet reg name = some d) : contractualCls d.cls := by
  unfold regGet at h
  rcases hf : reg.find? (fun p => p.1 = name) with _ | p
  · rw [hf] at h
    simp at h
  · rw [hf] at h
    have hp2 : p.2 = d := by
      simpa using h
    have hmem : p ∈ reg := List.mem_of_find?_eq_some hf
    rw [← hp2]
    exact hreg_ok p hmem

/-- Prefix bound for a block `tdE ++ [create nid] ++ sodEs` starting from a
live set `l₀` of length ≤ 1 which `tdE` empties. -/
theorem block_prefix_le (tdE : List Event) (nid : ℕ) (sodEs : List Event)
    (l₀ : List ℕ) (htd : ∀ n, ((tdE.take n).foldl liveApply l₀).length ≤ 1)
    (htd_full : tdE.foldl liveApply l₀ = [])
    (hne : NeutralEvents sodEs) :
    ∀ n, (((tdE ++ ([Event.create nid] ++ sodEs)).take n).foldl liveApply
      l₀).length ≤ 1 := by
  intro n
  rw [take_append_foldl, take_append_foldl]
  rcases Nat.eq_zero_or_pos (n - tdE.length) with hm | hm
  · rw [hm]
    show ((sodEs.take (0 - 1)).foldl liveApply
      (([Event.create nid].take 0).foldl liveApply
        ((tdE.take n).foldl liveApply l₀))).length ≤ 1
    simp only [Nat.zero_sub, List.take_zero, List.foldl_nil, List.take]
    exact htd n
  · have hn_td : tdE.length ≤ n := by
      omega
    rw [List.take_of_length_le hn_td, htd_full]
    rw [foldl_take_single]
    rw [if_neg (by omega)]
    show ((sodEs.take (n - tdE.length - 1)).foldl liveApply
      (liveApply [] (Event.create nid))).length ≤ 1
    rw [hne (liveApply [] (Event.create nid)) (n - tdE.length - 1)]
    simp [liveApply]

/-- Live set after the full block `tdE ++ [create nid] ++ sodEs`. -/
theorem block_foldl (tdE : List Event) (nid : ℕ) (sodEs : List Event)
    (l₀ : List ℕ) (htd_full : tdE.foldl liveApply l₀ = [])
    (hne : NeutralEvents sodEs) :
    (tdE ++ ([Event.create nid] ++ sodEs)).foldl liveApply l₀ = [nid] := by
  rw [List.foldl_append, htd_full, List.foldl_append]
  show sodEs.foldl liveApply (liveApply [] (Event.create nid)) = [nid]
  rw [neutralEvents_foldl sodEs hne]
  rfl

/-- Teardown facts for the current instance (or the trivial facts when there
is none). -/
theorem teardown_block (b : Builder) (hInv : BuilderInv b) :
    ((match b.currentInstance with
      | some i => teardownEvents i
      | none => ([] : List Event))).foldl liveApply (optIds b.currentInstance)
        = [] ∧
    ∀ n, (((match b.currentInstance with
      | some i => teardownEvents i
      | none => ([] : List Event)).take n).foldl liveApply
        (optIds b.currentInstance)).length ≤ 1 := by
  cases hinst : b.currentInstance with
  | none => exact ⟨rfl, fun n => by simp [optIds]⟩
  | some i =>
    obtain ⟨e, he, hle⟩ := teardown_shape i (hInv.inst_ok i hinst)
    constructor
    · show (teardownEvents i).foldl liveApply (optIds (some i)) = []
      rw [he]
      show liveApply (optIds (some i)) e = []
      rw [hle]
      show ([i.id].erase i.id) = []
      simp
    · intro n
      show (((teardownEvents i).take n).foldl liveApply
        (optIds (some i))).length ≤ 1
      rw [he, foldl_take_single]
      split
      · simp [optIds]
      · rw [hle]
        show (([i.id]).erase i.id).length ≤ 1
        simp

theorem select_preserves (b : Builder) (name : String)
    (opts : Option (List (String × JSVal))) (hInv : BuilderInv b) :
    BuilderInv (selectBackground b name opts) := by
  unfold selectBackground
  split
  · exact hInv
  · cases hfind : regGet b.registry name with
    | none =>
      exact ⟨hInv.live_eq, hInv.prefix_le, hInv.reg_ok, hInv.inst_ok⟩
    | some d =>
      have hdc : contractualCls d.cls := regGet_contract _ hInv.reg_ok _ _ hfind
      obtain ⟨htd_full, htd_pre⟩ := teardown_block b hInv
      dsimp only
      split
      · -- constructor throws: only the teardown happened
        refine inv_extend b _ (match b.currentInstance with
          | some i => teardownEvents i
          | none => []) rfl rfl htd_full htd_pre ?_ hInv
        intro i hi
        cases hi
      · -- construction succeeds, then start()/draw()
        obtain ⟨sodEs, hne, htr2, hids, hcls⟩ := startOrDraw_shape
          { valid := b.valid, hasCanvas := b.hasCanvas, hasCtx := b.hasCtx,
            hasControls := b.hasControls, registry := b.registry,
            currentType := some name,
            currentOptions := opts.getD d.defaults,
            currentInstance := some ⟨b.nextId, d.cls, false⟩,
            nextId := b.nextId + 1,
            trace := (b.trace ++ (match b.currentInstance with
              | some i => teardownEvents i
              | none => [])) ++ [Event.create b.nextId],
            notifications := b.notifications, controls := .rendered }
        refine inv_extend b _ ((match b.currentInstance with
            | some i => teardownEvents i
            | none => []) ++ ([Event.create b.nextId] ++ sodEs))
          ?_ ?_ ?_ ?_ ?_ hInv
        · rw [startOrDraw_registry]
        · rw [htr2]
          simp [List.append_assoc]
        · rw [block_foldl _ _ _ _ htd_full hne, hids]
          rfl
        · exact block_prefix_le _ _ _ _ htd_pre htd_full hne
        · intro i' hi'
          obtain ⟨i0, hi0, hic⟩ := hcls i' hi'
          have : i0 = ⟨b.nextId, d.cls, false⟩ := (Option.some.inj hi0).symm
          rw [hic, this]
          exact hdc

theorem neutralEvents_ifSingle (c : Bool) (e : Event)
    (h : ∀ l, liveApply l e = l) :
    NeutralEvents (if c = true then [e] else []) := by
  split
  · exact neutralEvents_single e h
  · exact neutralEvents_nil

theorem inv_extend_neutral (b b' : Builder) (es : List Event)
    (hreg : b'.registry = b.registry) (htr : b'.trace = b.trace ++ es)
    (hne : NeutralEvents es)
    (hinst : b'.currentInstance = b.currentInstance)
    (hInv : BuilderInv b) : BuilderInv b' :=
  inv_extend b b' es hreg htr
    (by rw [neutralEvents_foldl _ hne, hinst])
    (fun n => by rw [hne]; exact optIds_length_le _)
    (fun i hi => hInv.inst_ok i (hinst ▸ hi)) hInv

/-- `teardownEvents i` empties the singleton live set, with all prefixes
small. -/
theorem teardown_i_block (i : EffectInstance) (hc : contractualCls i.cls) :
    (teardownEvents i).foldl liveApply [i.id] = [] ∧
    ∀ n, (((teardownEvents i).take n).foldl liveApply [i.id]).length ≤ 1 := by
  obtain ⟨e, he, hle⟩ := teardown_shape i hc
  rw [he]
  constructor
  · show liveApply [i.id] e = []
    rw [hle]
    simp
  · intro n
    rw [foldl_take_single]
    split
    · simp
    · rw [hle]
      simp

theorem update_preserves (b : Builder) (key : String) (value : JSVal)
    (hInv : BuilderInv b) : BuilderInv (updateOption b key value) := by
  unfold updateOption
  split
  · exact hInv
  · split
    · exact hInv
    · dsimp only
      split
      · exact hInv
      · split
        · exact ⟨hInv.live_eq, hInv.prefix_le, hInv.reg_ok, hInv.inst_ok⟩
        · rename_i xa t heqa xb pv hpv xc bgInfo hreg
          have hdc : contractualCls bgInfo.cls :=
            regGet_contract _ hInv.reg_ok _ _ hreg
          split
          · rename_i i hinst
            split
            · -- non-restart path: neutral events only
              refine inv_extend_neutral b _
                ([Event.updateInternalCall i.id]
                  ++ (if ((match List.find? (fun s => decide (s.key = key))
                        (match regGet b.registry t with
                          | some d => d.schema
                          | none => []) with
                        | some s => s.requiresResize
                        | none => false) && i.cls.hasResize) = true then
                      [Event.resizeCall i.id] else [])
                  ++ (if (!i.animId && i.cls.hasDraw) = true then
                      [Event.drawCall i.id] else []))
                rfl (by simp [List.append_assoc]) ?_ rfl hInv
              exact neutralEvents_append _ _
                (neutralEvents_append _ _
                  (neutralEvents_single _ (fun l => rfl))
                  (neutralEvents_ifSingle _ _ (fun l => rfl)))
                (neutralEvents_ifSingle _ _ (fun l => rfl))
            · -- restart path with a current instance
              obtain ⟨htd_full, htd_pre⟩ :=
                teardown_i_block i (hInv.inst_ok i hinst)
              unfold restartInstance
              split
              · refine inv_extend b _ (teardownEvents i) rfl rfl ?_ ?_ ?_ hInv
                · rw [hinst]
                  exact htd_full
                · intro n
                  rw [hinst]
                  exact htd_pre n
                · intro j hj
                  cases hj
              · obtain ⟨sodEs, hne, htr2, hids, hcls⟩ := startOrDraw_shape
                  { valid := b.valid, hasCanvas := b.hasCanvas,
                    hasCtx := b.hasCtx, hasControls := b.hasControls,
                    registry := b.registry, currentType := b.currentType,
                    currentOptions := jsSet b.currentOptions key pv,
                    currentInstance := some ⟨b.nextId, bgInfo.cls, false⟩,
                    nextId := b.nextId + 1,
                    trace := (b.trace ++ teardownEvents i)
                      ++ [Event.create b.nextId],
                    notifications := b.notifications
                      ++ [(t, jsSet b.currentOptions key pv)],
                    controls := b.controls }
                refine inv_extend b _
                  (teardownEvents i ++ ([Event.create b.nextId] ++ sodEs))
                  ?_ ?_ ?_ ?_ ?_ hInv
                · rw [startOrDraw_registry]
                · rw [htr2]
                  simp [List.append_assoc]
                · rw [hinst, hids]
                  exact block_foldl _ _ _ _ htd_full hne
                · intro n
                  rw [hinst]
                  exact block_prefix_le _ _ _ _ htd_pre htd_full hne n
                · intro i' hi'
                  obtain ⟨i0, hi0, hic⟩ := hcls i' hi'
                  have h0 : i0 = ⟨b.nextId, bgInfo.cls, false⟩ :=
                    (Option.some.inj hi0).symm
                  rw [hic, h0]
                  exact hdc
          · rename_i hinst
            unfold restartInstance
            split
            · refine ⟨?_, hInv.prefix_le, hInv.reg_ok, fun j hj => by cases hj⟩
              have h2 := hInv.live_eq
              rw [hinst] at h2
              exact h2
            · obtain ⟨sodEs, hne, htr2, hids, hcls⟩ := startOrDraw_shape
                { valid := b.valid, hasCanvas := b.hasCanvas,
                  hasCtx := b.hasCtx, hasControls := b.hasControls,
                  registry := b.registry, currentType := b.currentType,
                  currentOptions := jsSet b.currentOptions key pv,
                  currentInstance := some ⟨b.nextId, bgInfo.cls, false⟩,
                  nextId := b.nextId + 1,
                  trace := b.trace ++ [Event.create b.nextId],
                  notifications := b.notifications
                    ++ [(t, jsSet b.currentOptions key pv)],
                  controls := b.controls }
              refine inv_extend b _ ([Event.create b.nextId] ++ sodEs)
                ?_ ?_ ?_ ?_ ?_ hInv
              · rw [startOrDraw_registry]
              · rw [htr2]
                simp [List.append_assoc]
              · rw [hinst, hids]
                have h2 := block_foldl [] b.nextId sodEs [] rfl hne
                rw [List.nil_append] at h2
                exact h2
              · intro n
                rw [hinst]
                have h2 := block_prefix_le [] b.nextId sodEs []
                  (fun m => by simp) rfl hne n
                rw [List.nil_append] at h2
                exact h2
              · intro i' hi'
                obtain ⟨i0, hi0, hic⟩ := hcls i' hi'
                have h0 : i0 = ⟨b.nextId, bgInfo.cls, false⟩ :=
                  (Option.some.inj hi0).symm
                rw [hic, h0]
                exact hdc

/-! ## C1: at most one live effect instance (theorem, witness) -/
/-- Whether a call is a `registerBackground` call. -/
def Op.isRegister : Op → Bool
  | .register _ _ => true
  | _ => false

theorem initBuilder_inv (reg : List (String × Descriptor))
    (hreg : ∀ p ∈ reg, contractualCls p.2.cls) : BuilderInv (initBuilder reg) :=
  ⟨rfl, fun n => by simp [initBuilder, liveAfter], hreg, fun i hi => by cases hi⟩

/-- **C1.**  Over any sequence of `selectBackground`/`updateOption` calls on a
freshly initialised builder whose registered classes honour the lifecycle
contract (each has `destroy` or at least `stop`), at every point of the
resulting lifecycle trace at most one effect instance is alive — each
`create` is preceded by the `destroy()`/`stop()` of the previous instance —
and the live set always coincides with the builder's single instance
reference. -/
theorem builder_at_most_one_live_instance
    (reg : List (String × Descriptor))
    (hcontract : ∀ p ∈ reg, contractualCls p.2.cls)
    (ops : List Op) (hops : ∀ op ∈ ops, op.isRegister = false) :
    (∀ n, (liveAfter ((runOps (initBuilder reg) ops).trace.take n)).length ≤ 1) ∧
    liveAfter (runOps (initBuilder reg) ops).trace
      = optIds (runOps (initBuilder reg) ops).currentInstance := by
  have hstep : ∀ (bb : Builder) (op : Op), op.isRegister = false →
      BuilderInv bb → BuilderInv (stepOp bb op) := by
    intro bb op hop hI
    cases op with
    | register name d => simp [Op.isRegister] at hop
    | select name o => exact select_preserves bb name o hI
    | update k v => exact update_preserves bb k v hI
  have hrun : ∀ (l : List Op) (bb : Builder),
      (∀ op ∈ l, op.isRegister = false) → BuilderInv bb →
      BuilderInv (runOps bb l) := by
    intro l
    induction l with
    | nil => exact fun bb _ hI => hI
    | cons o tl ih =>
      intro bb hl hI
      show BuilderInv (runOps (stepOp bb o) tl)
      exact ih (stepOp bb o) (fun op hm => hl op (List.mem_cons_of_mem o hm))
        (hstep bb o (hl o (List.mem_cons_self o tl)) hI)
  have hInv := hrun ops (initBuilder reg) hops (initBuilder_inv reg hcontract)
  exact ⟨hInv.prefix_le, hInv.live_eq⟩

/-- A contract-honouring descriptor for the C1 witness. -/
def c1Desc : Descriptor := { cls := {}, defaults := [], schema := [] }

/-- Registry for the C1 witness. -/
def c1Reg : List (String × Descriptor) := [("FX", c1Desc)]

/-- A call sequence: select, update (forcing a restart since the schema is
empty and boolean values pass through), select again. -/
def c1Ops : List Op :=
  [Op.select "FX" none, Op.update "k" (.bool true), Op.select "FX" none]

theorem c1Reg_contract : ∀ p ∈ c1Reg, contractualCls p.2.cls := by
  intro p hp
  rw [show c1Reg = [("FX", c1Desc)] from rfl, List.mem_singleton] at hp
  subst hp
  exact Or.inl rfl

theorem builder_at_most_one_live_instance_witness :
    (∀ p ∈ c1Reg, contractualCls p.2.cls) ∧
    (∀ op ∈ c1Ops, op.isRegister = false) ∧
    (liveAfter ((runOps (initBuilder c1Reg) c1Ops).trace.take 5)).length ≤ 1 :=
  ⟨c1Reg_contract, by decide,
    (builder_at_most_one_live_instance c1Reg c1Reg_contract c1Ops (by decide)).1 5⟩

/-! ## C8: resize on an idle Starfield draws exactly once (theorem, witness) -/
/-- The fields of a Starfield state that `resize`/`draw` branch on are not
touched by random-tape consumption. -/
structure CoreEq (st st' : StarfieldState) : Prop where
  width : st'.width = st.width
  height : st'.height = st.height
  starCount : st'.starCount = st.starCount
  animationId : st'.animationId = st.animationId
  drawCalls : st'.drawCalls = st.drawCalls
  centerX : st'.centerX = st.centerX
  centerY : st'.centerY = st.centerY
  starsEq : st'.stars = st.stars

theorem coreEq_refl (st : StarfieldState) : CoreEq st st :=
  ⟨rfl, rfl, rfl, rfl, rfl, rfl, rfl, rfl⟩

theorem coreEq_trans {s1 s2 s3 : StarfieldState} (h1 : CoreEq s1 s2)
    (h2 : CoreEq s2 s3) : CoreEq s1 s3 :=
  ⟨h2.width.trans h1.width, h2.height.trans h1.height,
   h2.starCount.trans h1.starCount, h2.animationId.trans h1.animationId,
   h2.drawCalls.trans h1.drawCalls, h2.centerX.trans h1.centerX,
   h2.centerY.trans h1.centerY, h2.starsEq.trans h1.starsEq⟩

theorem nextRand_core (st : StarfieldState) : CoreEq st (nextRand st).2 := by
  unfold nextRand
  cases st.rng <;> exact ⟨rfl, rfl, rfl, rfl, rfl, rfl, rfl, rfl⟩

theorem createStar_core (isInitial : Bool) (st : StarfieldState) :
    CoreEq st (createStar isInitial st).2 := by
  unfold createStar
  dsimp only
  split
  · split
    · exact coreEq_trans (coreEq_trans (coreEq_trans (nextRand_core st)
        (nextRand_core _)) (nextRand_core _)) (nextRand_core _)
    · exact coreEq_trans (coreEq_trans (nextRand_core st) (nextRand_core _))
        (nextRand_core _)
  · exact coreEq_trans (coreEq_trans (nextRand_core st) (nextRand_core _))
      (nextRand_core _)

theorem fillStars_core (n : ℕ) :
    ∀ st : StarfieldState, CoreEq st (fillStars n st).2 ∧
      (fillStars n st).1.length = n := by
  induction n with
  | zero => exact fun st => ⟨coreEq_refl st, rfl⟩
  | succ m ih =>
    intro st
    unfold fillStars
    dsimp only
    constructor
    · exact coreEq_trans (createStar_core true st)
        (ih (createStar true st).2).1
    · simp [(ih (createStar true st).2).2]

theorem warpStep_core (st : StarfieldState) (star : StarObj) :
    CoreEq st (warpStep st star).2 := by
  unfold warpStep
  dsimp only
  split
  · exact coreEq_trans (coreEq_trans (createStar_core false st)
      (nextRand_core _)) (nextRand_core _)
  · exact coreEq_refl st

theorem scrollStep_core (st : StarfieldState) (star : StarObj) :
    CoreEq st (scrollStep st star).2 := by
  unfold scrollStep
  dsimp only
  split
  · exact coreEq_trans (nextRand_core st) (nextRand_core _)
  · exact coreEq_refl st

theorem renderStars_core (l : List StarObj) :
    ∀ st : StarfieldState, CoreEq st (renderStars st l).2 ∧
      (renderStars st l).1.length = l.length := by
  induction l with
  | nil => exact fun st => ⟨coreEq_refl st, rfl⟩
  | cons star rest ih =>
    intro st
    unfold renderStars
    dsimp only
    constructor
    · refine coreEq_trans ?_ (ih _).1
      by_cases hw : st.warpEffect = true
      · rw [if_pos hw]
        exact warpStep_core st star
      · rw [if_neg hw]
        exact scrollStep_core st star
    · simp [(ih ((if st.warpEffect = true then warpStep st star
        else scrollStep st star)).2).2]

theorem renderPass_facts (st : StarfieldState) :
    (renderPass st).drawCalls = st.drawCalls ∧
    (renderPass st).centerX = st.centerX ∧
    (renderPass st).centerY = st.centerY ∧
    (renderPass st).stars.length = st.stars.length ∧
    (renderPass st).starCount = st.starCount := by
  unfold renderPass
  dsimp only
  obtain ⟨hc, hl⟩ := renderStars_core st.stars st
  exact ⟨hc.drawCalls, hc.centerX, hc.centerY, hl, hc.starCount⟩

theorem resizeCore_facts (st : StarfieldState) :
    (resizeCore st).stars.length = st.starCount ∧
    (resizeCore st).centerX = st.width / 2 ∧
    (resizeCore st).centerY = st.height / 2 ∧
    (resizeCore st).animationId = st.animationId ∧
    (resizeCore st).drawCalls = st.drawCalls ∧
    (resizeCore st).width = st.width ∧
    (resizeCore st).height = st.height ∧
    (resizeCore st).starCount = st.starCount := by
  unfold resizeCore
  dsimp only
  have hkle : (st.stars.take st.starCount).length ≤ st.starCount := by
    simp [List.length_take]
  obtain ⟨hcore, hflen⟩ := fillStars_core
    (st.starCount - (st.stars.take st.starCount).length)
    { st with
        centerX := st.width / 2,
        centerY := st.height / 2,
        stars := st.stars.take st.starCount }
  have hlen3 : ((st.stars.take st.starCount)
      ++ (fillStars (st.starCount - (st.stars.take st.starCount).length)
        { st with
            centerX := st.width / 2,
            centerY := st.height / 2,
            stars := st.stars.take st.starCount }).1).length = st.starCount := by
    rw [List.length_append, hflen]
    omega
  split
  · obtain ⟨hcore2, hflen2⟩ := fillStars_core
      ((fillStars (st.starCount - (st.stars.take st.starCount).length)
        { st with
            centerX := st.width / 2,
            centerY := st.height / 2,
            stars := st.stars.take st.starCount }).2.starCount)
      { (fillStars (st.starCount - (st.stars.take st.starCount).length)
        { st with
            centerX := st.width / 2,
            centerY := st.height / 2,
            stars := st.stars.take st.starCount }).2 with stars := [] }
    refine ⟨?_, ?_, ?_, ?_, ?_, ?_, ?_, ?_⟩
    · rw [hflen2]
      rw [hcore.starCount]
    · rw [hcore2.centerX]
      exact hcore.centerX
    · rw [hcore2.centerY]
      exact hcore.centerY
    · rw [hcore2.animationId]
      exact hcore.animationId
    · rw [hcore2.drawCalls]
      exact hcore.drawCalls
    · rw [hcore2.width]
      exact hcore.width
    · rw [hcore2.height]
      exact hcore.height
    · rw [hcore2.starCount]
      exact hcore.starCount
  · exact ⟨hlen3, hcore.centerX, hcore.centerY, hcore.animationId,
      hcore.drawCalls, hcore.width, hcore.height, hcore.starCount⟩

/-- `draw()` on a positive-area canvas whose star array already has the
target size performs no recursive resize: it just renders once. -/
theorem drawS_prepared (m : ℕ) (s : StarfieldState)
    (hw : 0 < s.width) (hh : 0 < s.height)
    (hl : s.stars.length = s.starCount) :
    (drawS (m + 1) s).drawCalls = s.drawCalls + 1 ∧
    (drawS (m + 1) s).centerX = s.centerX ∧
    (drawS (m + 1) s).centerY = s.centerY ∧
    (drawS (m + 1) s).stars.length = s.starCount := by
  show (drawS (m + 1) s).drawCalls = s.drawCalls + 1 ∧ _
  unfold drawS
  dsimp only
  rw [if_neg (by push_neg; exact ⟨hw.ne', hh.ne'⟩)]
  by_cases hsc : s.starCount = 0
  · rw [if_neg (by rw [hl, hsc]; omega), if_pos (by rw [hl, hsc]; omega)]
    exact ⟨rfl, rfl, rfl, by rw [hl]⟩
  · rw [if_neg (by rw [hl]; omega), if_neg (by rw [hl]; omega)]
    obtain ⟨h1, h2, h3, h4, _⟩ := renderPass_facts
      { s with drawCalls := s.drawCalls + 1 }
    exact ⟨h1, h2, h3, by rw [h4]; exact hl⟩

/-- **C8.**  `resize()` on a Starfield instance that is not animating
(`animationId` null) and whose canvas has positive area recomputes the
geometry derived from the surface size (the centre moves to
`(width/2, height/2)` and the star array is rebuilt to `starCount` entries)
and performs exactly one `draw()` call before returning. -/
theorem starfield_resize_idle_draws_once (st : StarfieldState) (fuel : ℕ)
    (hf : 2 ≤ fuel) (ha : st.animationId = false)
    (hw : 0 < st.width) (hh : 0 < st.height) :
    (resizeS fuel st).drawCalls = st.drawCalls + 1 ∧
    (resizeS fuel st).centerX = st.width / 2 ∧
    (resizeS fuel st).centerY = st.height / 2 ∧
    (resizeS fuel st).stars.length = st.starCount := by
  obtain ⟨m, rfl⟩ : ∃ m, fuel = (m + 1) + 1 := ⟨fuel - 2, by omega⟩
  show (resizeS (m + 1 + 1) st).drawCalls = st.drawCalls + 1 ∧ _
  unfold resizeS
  dsimp only
  rw [if_neg (by push_neg; exact ⟨hw.ne', hh.ne'⟩)]
  obtain ⟨hrl, hrx, hry, hra, hrd, hrw, hrh, hrc⟩ := resizeCore_facts st
  rw [if_neg (by rw [hra, ha]; exact Bool.false_ne_true)]
  obtain ⟨g1, g2, g3, g4⟩ := drawS_prepared m (resizeCore st)
    (by rw [hrw]; exact hw) (by rw [hrh]; exact hh) (by rw [hrl, hrc])
  refine ⟨by rw [g1, hrd], by rw [g2, hrx], by rw [g3, hry], by rw [g4, hrc]⟩

/-- A concrete idle Starfield state for the C8 witness. -/
def c8State : StarfieldState :=
  { width := 100, height := 50, starCount := 2, minStarSize := 1/2,
    maxStarSize := 5/2, baseSpeed := 1/2, warpStrength := 50,
    warpEffect := true, stars := [], animationId := false,
    centerX := 0, centerY := 0, drawCalls := 0, rng := [] }

theorem starfield_resize_idle_draws_once_witness :
    (2 ≤ 2 ∧ c8State.animationId = false ∧ (0 : ℚ) < c8State.width ∧
      (0 : ℚ) < c8State.height) ∧
    (resizeS 2 c8State).drawCalls = c8State.drawCalls + 1 :=
  ⟨⟨le_refl 2, rfl, by norm_num [c8State], by norm_num [c8State]⟩,
    (starfield_resize_idle_draws_once c8State 2 (le_refl 2) rfl
      (by norm_num [c8State]) (by norm_num [c8State])).1⟩

/-! ## C6: the Option Set is a fresh deep copy, but no merge happens (counterexample, amended theorem, witness) -/

/-! ## C6 heap lemmas: lookup, well-formedness, field writes -/

theorem hLookup_cons (x : ℕ × HCell) (h : Heap) (b : ℕ) :
    hLookup (x :: h) b = if x.1 = b then some x.2 else hLookup h b := by
  unfold hLookup
  rw [List.find?_cons]
  by_cases hxb : x.1 = b
  · simp [hxb]
  · simp [hxb]

theorem hLookup_mem {h : Heap} {a : ℕ} {cell : HCell}
    (hl : hLookup h a = some cell) : (a, cell) ∈ h := by
  unfold hLookup at hl
  cases hf : List.find? (fun p => p.1 = a) h with
  | none => rw [hf] at hl; exact absurd hl (by simp)
  | some p =>
    rw [hf] at hl
    have hp1 : p.1 = a := by have := List.find?_some hf; simpa using this
    have hp2 : p.2 = cell := by simpa using hl
    have hpe : p = (a, cell) := by
      obtain ⟨x, y⟩ := p
      simp only at hp1 hp2
      rw [hp1, hp2]
    exact hpe ▸ List.mem_of_find?_eq_some hf

theorem heapWF_lookup_lt {h : Heap} {c : ℕ} (hwf : heapWF h c) {a : ℕ} {cell : HCell}
    (hl : hLookup h a = some cell) : a < c ∧ ∀ r ∈ cellRefs cell, r < c :=
  hwf (a, cell) (hLookup_mem hl)

theorem hLookup_none_of_ge {h : Heap} {c : ℕ} (hwf : heapWF h c) {a : ℕ} (ha : c ≤ a) :
    hLookup h a = none := by
  cases hl : hLookup h a with
  | none => rfl
  | some cell => exact absurd (heapWF_lookup_lt hwf hl).1 (not_lt.mpr ha)

theorem cellRefs_hobj_cons (k : String) (v : HVal) (rest : List (String × HVal)) :
    cellRefs (.hobj ((k, v) :: rest)) = valRefs v ++ cellRefs (.hobj rest) := rfl

theorem cellRefs_harr_cons (v : HVal) (rest : List HVal) :
    cellRefs (.harr (v :: rest)) = valRefs v ++ cellRefs (.harr rest) := rfl

theorem hLookup_map_keys (g : ℕ × HCell → ℕ × HCell)
    (hg : ∀ p, (g p).1 = p.1) (b : ℕ) (hkeep : ∀ p, p.1 = b → g p = p) :
    ∀ h : Heap, hLookup (h.map g) b = hLookup h b := by
  intro h
  induction h with
  | nil => rfl
  | cons p t ih =>
    rw [List.map_cons, hLookup_cons, hLookup_cons, hg p]
    by_cases hpb : p.1 = b
    · rw [if_pos hpb, if_pos hpb, hkeep p hpb]
    · rw [if_neg hpb, if_neg hpb, ih]

theorem hLookup_setFieldH_ne (h : Heap) (a : ℕ) (k : String) (v : HVal)
    {b : ℕ} (hne : b ≠ a) : hLookup (setFieldH h a k v) b = hLookup h b := by
  unfold setFieldH
  apply hLookup_map_keys
  · intro p
    obtain ⟨a0, c0⟩ := p
    by_cases ha0 : a0 = a
    · simp only [ha0, if_pos rfl]
      cases c0 <;> rfl
    · simp only [if_neg ha0]
  · intro p hpb
    obtain ⟨a0, c0⟩ := p
    simp only at hpb
    rw [if_neg]
    intro ha0
    simp only at ha0
    exact hne (hpb ▸ ha0)

/-- Every cell stored at an address `≥ c0` in `h` has all its references in
`[c0, c1)`: the cells a copy allocated starting at counter `c0` and ending at
`c1` form a closed segment, disjoint from the pre-existing heap. -/
def freshSeg (h : Heap) (c0 c1 : ℕ) : Prop :=
  ∀ a, c0 ≤ a → ∀ cell, hLookup h a = some cell →
    ∀ r ∈ cellRefs cell, c0 ≤ r ∧ r < c1

theorem copy_fresh : ∀ fuel : ℕ,
    (∀ h c v v2 h2 c2, heapWF h c → valBound v c →
      copyV fuel h c v = some (v2, h2, c2) →
      c ≤ c2 ∧ (∀ b, b < c → hLookup h2 b = hLookup h b) ∧
      heapWF h2 c2 ∧ (∀ r ∈ valRefs v2, c ≤ r ∧ r < c2) ∧
      freshSeg h2 c c2) ∧
    (∀ h c fs fs2 h2 c2, heapWF h c → (∀ r ∈ cellRefs (HCell.hobj fs), r < c) →
      copyFields fuel h c fs = some (fs2, h2, c2) →
      c ≤ c2 ∧ (∀ b, b < c → hLookup h2 b = hLookup h b) ∧
      heapWF h2 c2 ∧
      (∀ r ∈ cellRefs (HCell.hobj fs2), c ≤ r ∧ r < c2) ∧
      freshSeg h2 c c2) ∧
    (∀ h c es es2 h2 c2, heapWF h c → (∀ r ∈ cellRefs (HCell.harr es), r < c) →
      copyElems fuel h c es = some (es2, h2, c2) →
      c ≤ c2 ∧ (∀ b, b < c → hLookup h2 b = hLookup h b) ∧
      heapWF h2 c2 ∧
      (∀ r ∈ cellRefs (HCell.harr es2), c ≤ r ∧ r < c2) ∧
      freshSeg h2 c c2) := by
  intro fuel
  induction fuel with
  | zero =>
    refine ⟨?_, ?_, ?_⟩
    · intro h c v v2 h2 c2 _ _ hcopy; exact absurd hcopy (by simp [copyV])
    · intro h c fs fs2 h2 c2 _ _ hcopy; exact absurd hcopy (by simp [copyFields])
    · intro h c es es2 h2 c2 _ _ hcopy; exact absurd hcopy (by simp [copyElems])
  | succ fuel ih =>
    obtain ⟨IHv, IHf, IHe⟩ := ih
    refine ⟨?_, ?_, ?_⟩
    · intro h c v v2 h2 c2 hwf hvb hcopy
      cases v with
      | vnull =>
        simp only [copyV, Option.some_inj, Prod.mk.injEq] at hcopy
        obtain ⟨rfl, rfl, rfl⟩ := hcopy
        exact ⟨le_refl c, fun b _ => rfl, hwf, fun r hr => absurd hr (by simp [valRefs]),
          fun a0 ha0 cell0 hl0 => absurd ((hLookup_none_of_ge hwf ha0) ▸ hl0) (by simp)⟩
      | vbool bb =>
        simp only [copyV, Option.some_inj, Prod.mk.injEq] at hcopy
        obtain ⟨rfl, rfl, rfl⟩ := hcopy
        exact ⟨le_refl c, fun b _ => rfl, hwf, fun r hr => absurd hr (by simp [valRefs]),
          fun a0 ha0 cell0 hl0 => absurd ((hLookup_none_of_ge hwf ha0) ▸ hl0) (by simp)⟩
      | vnum q =>
        simp only [copyV, Option.some_inj, Prod.mk.injEq] at hcopy
        obtain ⟨rfl, rfl, rfl⟩ := hcopy
        exact ⟨le_refl c, fun b _ => rfl, hwf, fun r hr => absurd hr (by simp [valRefs]),
          fun a0 ha0 cell0 hl0 => absurd ((hLookup_none_of_ge hwf ha0) ▸ hl0) (by simp)⟩
      | vstr s =>
        simp only [copyV, Option.some_inj, Prod.mk.injEq] at hcopy
        obtain ⟨rfl, rfl, rfl⟩ := hcopy
        exact ⟨le_refl c, fun b _ => rfl, hwf, fun r hr => absurd hr (by simp [valRefs]),
          fun a0 ha0 cell0 hl0 => absurd ((hLookup_none_of_ge hwf ha0) ▸ hl0) (by simp)⟩
      | vref a =>
        simp only [copyV] at hcopy
        cases hla : hLookup h a with
        | none => simp [hla] at hcopy
        | some cell =>
          simp only [hla] at hcopy
          cases cell with
          | hobj fs =>
            cases hcf : copyFields fuel h c fs with
            | none => simp [hcf] at hcopy
            | some res =>
              obtain ⟨fs', h1, c1⟩ := res
              simp only [hcf, Option.some_inj, Prod.mk.injEq] at hcopy
              obtain ⟨rfl, rfl, rfl⟩ := hcopy
              obtain ⟨m1, p1, w1, r1, f1⟩ :=
                IHf h c fs fs' h1 c1 hwf (heapWF_lookup_lt hwf hla).2 hcf
              refine ⟨le_trans m1 (Nat.le_succ c1), ?_, ?_, ?_, ?_⟩
              · intro b hb
                rw [hLookup_cons, if_neg]
                · exact p1 b hb
                · intro hcb
                  have hcb2 : c1 = b := hcb
                  omega
              · intro p hp
                rcases List.mem_cons.mp hp with rfl | hp1
                · refine ⟨Nat.lt_succ_self c1, ?_⟩
                  intro r hr
                  exact Nat.lt_succ_of_lt (r1 r hr).2
                · obtain ⟨hlt, hrr⟩ := w1 p hp1
                  exact ⟨Nat.lt_succ_of_lt hlt, fun r hr => Nat.lt_succ_of_lt (hrr r hr)⟩
              · intro r hr
                simp only [valRefs, List.mem_singleton] at hr
                rw [hr]
                exact ⟨m1, Nat.lt_succ_self c1⟩
              · intro a0 ha0 cell0 hl0 r hr
                rw [hLookup_cons] at hl0
                split at hl0
                · injection hl0 with hcell
                  subst hcell
                  obtain ⟨h1r, h2r⟩ := r1 r hr
                  exact ⟨h1r, Nat.lt_succ_of_lt h2r⟩
                · obtain ⟨h1r, h2r⟩ := f1 a0 ha0 cell0 hl0 r hr
                  exact ⟨h1r, Nat.lt_succ_of_lt h2r⟩
          | harr es =>
            cases hce : copyElems fuel h c es with
            | none => simp [hce] at hcopy
            | some res =>
              obtain ⟨es', h1, c1⟩ := res
              simp only [hce, Option.some_inj, Prod.mk.injEq] at hcopy
              obtain ⟨rfl, rfl, rfl⟩ := hcopy
              obtain ⟨m1, p1, w1, r1, f1⟩ :=
                IHe h c es es' h1 c1 hwf (heapWF_lookup_lt hwf hla).2 hce
              refine ⟨le_trans m1 (Nat.le_succ c1), ?_, ?_, ?_, ?_⟩
              · intro b hb
                rw [hLookup_cons, if_neg]
                · exact p1 b hb
                · intro hcb
                  have hcb2 : c1 = b := hcb
                  omega
              · intro p hp
                rcases List.mem_cons.mp hp with rfl | hp1
                · refine ⟨Nat.lt_succ_self c1, ?_⟩
                  intro r hr
                  exact Nat.lt_succ_of_lt (r1 r hr).2
                · obtain ⟨hlt, hrr⟩ := w1 p hp1
                  exact ⟨Nat.lt_succ_of_lt hlt, fun r hr => Nat.lt_succ_of_lt (hrr r hr)⟩
              · intro r hr
                simp only [valRefs, List.mem_singleton] at hr
                rw [hr]
                exact ⟨m1, Nat.lt_succ_self c1⟩
              · intro a0 ha0 cell0 hl0 r hr
                rw [hLookup_cons] at hl0
                split at hl0
                · injection hl0 with hcell
                  subst hcell
                  obtain ⟨h1r, h2r⟩ := r1 r hr
                  exact ⟨h1r, Nat.lt_succ_of_lt h2r⟩
                · obtain ⟨h1r, h2r⟩ := f1 a0 ha0 cell0 hl0 r hr
                  exact ⟨h1r, Nat.lt_succ_of_lt h2r⟩
    · intro h c fs fs2 h2 c2 hwf hrefs hcopy
      cases fs with
      | nil =>
        simp only [copyFields, Option.some_inj, Prod.mk.injEq] at hcopy
        obtain ⟨rfl, rfl, rfl⟩ := hcopy
        exact ⟨le_refl c, fun b _ => rfl, hwf,
          fun r hr => absurd hr (by simp [cellRefs]),
          fun a0 ha0 cell0 hl0 => absurd ((hLookup_none_of_ge hwf ha0) ▸ hl0) (by simp)⟩
      | cons kv rest =>
        obtain ⟨k, v⟩ := kv
        simp only [copyFields] at hcopy
        cases hcv : copyV fuel h c v with
        | none => simp [hcv] at hcopy
        | some res1 =>
          obtain ⟨v', h1, c1⟩ := res1
          simp only [hcv] at hcopy
          have hvb : valBound v c := fun r hr =>
            hrefs r (by rw [cellRefs_hobj_cons]; exact List.mem_append_left _ hr)
          have hrest : ∀ r ∈ cellRefs (HCell.hobj rest), r < c := fun r hr =>
            hrefs r (by rw [cellRefs_hobj_cons]; exact List.mem_append_right _ hr)
          obtain ⟨m1, p1, w1, r1, f1⟩ := IHv h c v v' h1 c1 hwf hvb hcv
          cases hcf : copyFields fuel h1 c1 rest with
          | none => simp [hcf] at hcopy
          | some res2 =>
            obtain ⟨rest', h3, c3⟩ := res2
            simp only [hcf, Option.some_inj, Prod.mk.injEq] at hcopy
            obtain ⟨rfl, rfl, rfl⟩ := hcopy
            have hrest1 : ∀ r ∈ cellRefs (HCell.hobj rest), r < c1 :=
              fun r hr => lt_of_lt_of_le (hrest r hr) m1
            obtain ⟨m2, p2, w2, r2, f2⟩ := IHf h1 c1 rest rest' h3 c3 w1 hrest1 hcf
            refine ⟨le_trans m1 m2, ?_, w2, ?_, ?_⟩
            · intro b hb
              rw [p2 b (lt_of_lt_of_le hb m1), p1 b hb]
            · intro r hr
              rw [cellRefs_hobj_cons] at hr
              rcases List.mem_append.mp hr with h5 | h5
              · obtain ⟨ha, hb2⟩ := r1 r h5
                exact ⟨ha, lt_of_lt_of_le hb2 m2⟩
              · obtain ⟨ha, hb2⟩ := r2 r h5
                exact ⟨le_trans m1 ha, hb2⟩
            · intro a0 ha0 cell0 hl0 r hr
              by_cases hflt : a0 < c1
              · rw [p2 a0 hflt] at hl0
                obtain ⟨ha, hb2⟩ := f1 a0 ha0 cell0 hl0 r hr
                exact ⟨ha, lt_of_lt_of_le hb2 m2⟩
              · obtain ⟨ha, hb2⟩ := f2 a0 (le_of_not_lt hflt) cell0 hl0 r hr
                exact ⟨le_trans m1 ha, hb2⟩
    · intro h c es es2 h2 c2 hwf hrefs hcopy
      cases es with
      | nil =>
        simp only [copyElems, Option.some_inj, Prod.mk.injEq] at hcopy
        obtain ⟨rfl, rfl, rfl⟩ := hcopy
        exact ⟨le_refl c, fun b _ => rfl, hwf,
          fun r hr => absurd hr (by simp [cellRefs]),
          fun a0 ha0 cell0 hl0 => absurd ((hLookup_none_of_ge hwf ha0) ▸ hl0) (by simp)⟩
      | cons v rest =>
        simp only [copyElems] at hcopy
        cases hcv : copyV fuel h c v with
        | none => simp [hcv] at hcopy
        | some res1 =>
          obtain ⟨v', h1, c1⟩ := res1
          simp only [hcv] at hcopy
          have hvb : valBound v c := fun r hr =>
            hrefs r (by rw [cellRefs_harr_cons]; exact List.mem_append_left _ hr)
          have hrest : ∀ r ∈ cellRefs (HCell.harr rest), r < c := fun r hr =>
            hrefs r (by rw [cellRefs_harr_cons]; exact List.mem_append_right _ hr)
          obtain ⟨m1, p1, w1, r1, f1⟩ := IHv h c v v' h1 c1 hwf hvb hcv
          cases hce : copyElems fuel h1 c1 rest with
          | none => simp [hce] at hcopy
          | some res2 =>
            obtain ⟨rest', h3, c3⟩ := res2
            simp only [hce, Option.some_inj, Prod.mk.injEq] at hcopy
            obtain ⟨rfl, rfl, rfl⟩ := hcopy
            have hrest1 : ∀ r ∈ cellRefs (HCell.harr rest), r < c1 :=
              fun r hr => lt_of_lt_of_le (hrest r hr) m1
            obtain ⟨m2, p2, w2, r2, f2⟩ := IHe h1 c1 rest rest' h3 c3 w1 hrest1 hce
            refine ⟨le_trans m1 m2, ?_, w2, ?_, ?_⟩
            · intro b hb
              rw [p2 b (lt_of_lt_of_le hb m1), p1 b hb]
            · intro r hr
              rw [cellRefs_harr_cons] at hr
              rcases List.mem_append.mp hr with h5 | h5
              · obtain ⟨ha, hb2⟩ := r1 r h5
                exact ⟨ha, lt_of_lt_of_le hb2 m2⟩
              · obtain ⟨ha, hb2⟩ := r2 r h5
                exact ⟨le_trans m1 ha, hb2⟩
            · intro a0 ha0 cell0 hl0 r hr
              by_cases hflt : a0 < c1
              · rw [p2 a0 hflt] at hl0
                obtain ⟨ha, hb2⟩ := f1 a0 ha0 cell0 hl0 r hr
                exact ⟨ha, lt_of_lt_of_le hb2 m2⟩
              · obtain ⟨ha, hb2⟩ := f2 a0 (le_of_not_lt hflt) cell0 hl0 r hr
                exact ⟨le_trans m1 ha, hb2⟩

/-- In a heap that agrees with a well-formed heap `h` below `c`, every address
reachable from a value bounded by `c` is itself below `c` (reachability never
escapes the old segment). -/
theorem reachV_lt_pres {h h' : Heap} {c : ℕ} (hwf : heapWF h c)
    (hpres : ∀ b, b < c → hLookup h' b = hLookup h b) :
    ∀ (f : ℕ) (v : HVal), valBound v c → ∀ a ∈ reachV f h' v, a < c := by
  intro f
  induction f with
  | zero => intro v _ a ha; simp [reachV] at ha
  | succ f ih =>
    intro v hvb a ha
    simp only [reachV, List.mem_flatMap] at ha
    obtain ⟨a0, ha0, hmem⟩ := ha
    have ha0c : a0 < c := hvb a0 ha0
    rcases List.mem_cons.mp hmem with rfl | hin
    · exact ha0c
    · rw [hpres a0 ha0c] at hin
      split at hin
      · rename_i cell hl
        rw [List.mem_flatMap] at hin
        obtain ⟨r, hr, hrec⟩ := hin
        have hrc : r < c := (heapWF_lookup_lt hwf hl).2 r hr
        refine ih (.vref r) ?_ a hrec
        intro x hx
        simp only [valRefs, List.mem_singleton] at hx
        rw [hx]
        exact hrc
      · simp at hin

/-- In a heap whose segment `[c, c')` is closed (`freshSeg`), every address
reachable from a value whose references all lie at or above `c` is itself at
or above `c`. -/
theorem reachV_fresh {h' : Heap} {c c' : ℕ} (hfresh : freshSeg h' c c') :
    ∀ (f : ℕ) (v : HVal), (∀ r ∈ valRefs v, c ≤ r) → ∀ a ∈ reachV f h' v, c ≤ a := by
  intro f
  induction f with
  | zero => intro v _ a ha; simp [reachV] at ha
  | succ f ih =>
    intro v hvb a ha
    simp only [reachV, List.mem_flatMap] at ha
    obtain ⟨a0, ha0, hmem⟩ := ha
    have hca0 : c ≤ a0 := hvb a0 ha0
    rcases List.mem_cons.mp hmem with rfl | hin
    · exact hca0
    · split at hin
      · rename_i cell hl
        rw [List.mem_flatMap] at hin
        obtain ⟨r, hr, hrec⟩ := hin
        have hrc := hfresh a0 hca0 cell hl r hr
        refine ih (.vref r) ?_ a hrec
        intro x hx
        simp only [valRefs, List.mem_singleton] at hx
        rw [hx]
        exact hrc.1
      · simp at hin

/-- A registry entry for the C6 theorems: a non-throwing class with
string-valued defaults and an empty schema. -/
def c6Desc : Descriptor where
  cls := {}
  defaults := [("starColor", JSVal.str "white")]
  schema := []

/-- A fresh builder with `c6Desc` registered under `"FX"`. -/
def c6Builder : Builder := initBuilder [("FX", c6Desc)]

/-- A one-cell heap holding the registered defaults object of `c6Desc`. -/
def c6Heap : Heap := [(0, HCell.hobj [("starColor", HVal.vstr "white")])]

/-- Modelled from the spec's words "created by merging Effect Descriptor
defaults with any previously-persisted or caller-supplied overrides": start
from the defaults and overwrite each supplied key, for comparison with the
source's `optionsToLoad || bgInfo.defaults` (line 1119). -/
def specMergedOptionSet (defaults overrides : List (String × JSVal)) :
    List (String × JSVal) :=
  overrides.foldl (fun acc p => jsSet acc p.1 p.2) defaults

/-- **C6 counterexample.**  `selectBackground` does not merge the descriptor
defaults with the caller-supplied options: line 1119 computes
`optionsToLoad || bgInfo.defaults`, so a supplied (truthy) options object
replaces the defaults wholesale.  Selecting `"FX"` with the empty override
object yields the empty Option Set, while the merge described by the spec
would yield the descriptor defaults, which are non-empty. -/
theorem selectBackground_no_merge_counterexample :
    (selectBackground c6Builder "FX" (some [])).currentOptions = [] ∧
    specMergedOptionSet c6Desc.defaults [] = c6Desc.defaults ∧
    c6Desc.defaults ≠ [] := by
  refine ⟨by decide, rfl, by decide⟩

/-- **C6 (amended).**  For every `selectBackground(name, optionsToLoad)` on a
registered effect, the new Option Set is `optionsToLoad` itself when supplied,
otherwise the descriptor defaults (no merge), deep-copied
(`JSON.parse(JSON.stringify(·))`, modelled by `copyV` on an explicit heap) so
that it shares no mutable structure with the registered defaults object:
every address reachable from the copy is freshly allocated (`≥ c`), every
address reachable from the defaults root is old (`< c`) and its cell is
untouched by the copy, and consequently a later property write (as
`updateOption` performs on the Option Set) through any address reachable from
the copy leaves every cell reachable from the defaults unchanged. -/
theorem selectBackground_copy_no_aliasing_amended
    (b : Builder) (name : String) (opts : Option (List (String × JSVal)))
    (d : Descriptor)
    (hv : b.valid = true) (hc : b.hasCanvas = true)
    (hx : b.hasCtx = true) (hcc : b.hasControls = true)
    (hreg : regGet b.registry name = some d)
    (h : Heap) (c : ℕ) (defaultsRoot toCopy v2 : HVal) (h2 : Heap) (c2 : ℕ)
    (fuel g : ℕ)
    (hwf : heapWF h c) (hdb : valBound defaultsRoot c) (htb : valBound toCopy c)
    (hcopy : copyV fuel h c toCopy = some (v2, h2, c2)) :
    (selectBackground b name opts).currentOptions = opts.getD d.defaults ∧
    (∀ a ∈ reachV g h2 v2, c ≤ a) ∧
    (∀ bb ∈ reachV g h2 defaultsRoot, bb < c ∧ hLookup h2 bb = hLookup h bb) ∧
    (∀ a ∈ reachV g h2 v2, ∀ k w0 bb, bb ∈ reachV g h2 defaultsRoot →
      hLookup (setFieldH h2 a k w0) bb = hLookup h2 bb) := by
  obtain ⟨hm, hp, hw, hr, hf⟩ := (copy_fresh fuel).1 h c toCopy v2 h2 c2 hwf htb hcopy
  have hreachNew : ∀ a ∈ reachV g h2 v2, c ≤ a :=
    reachV_fresh hf g v2 (fun x hx2 => (hr x hx2).1)
  have hreachOld : ∀ bb ∈ reachV g h2 defaultsRoot, bb < c :=
    reachV_lt_pres hwf hp g defaultsRoot hdb
  refine ⟨?_, hreachNew, ?_, ?_⟩
  · by_cases hct : d.cls.ctorThrows = true
    · have hsel : selectBackground b name opts
          = { b with
                trace := b.trace ++ (match b.currentInstance with
                  | some i => teardownEvents i
                  | none => []),
                currentInstance := none, currentType := none,
                currentOptions := opts.getD d.defaults,
                controls := .errorText } := by
        unfold selectBackground
        simp only [hv, hc, hx, hcc, hreg, hct]
        simp
      rw [hsel]
    · unfold selectBackground
      simp only [hv, hc, hx, hcc, eq_self_iff_true, and_self, not_true,
        ite_false, hreg]
      rw [if_neg hct, startOrDraw_currentOptions]
  · intro bb hbb
    exact ⟨hreachOld bb hbb, hp bb (hreachOld bb hbb)⟩
  · intro a ha k w0 bb hbb
    exact hLookup_setFieldH_ne h2 a k w0
      (Nat.ne_of_lt (lt_of_lt_of_le (hreachOld bb hbb) (hreachNew a ha)))

theorem selectBackground_copy_no_aliasing_amended_witness :
    heapWF c6Heap 1 ∧ valBound (HVal.vref 0) 1 ∧
    (selectBackground c6Builder "FX" none).currentOptions = c6Desc.defaults ∧
    (1 : ℕ) ≤ 1 := by
  have hwf : heapWF c6Heap 1 := by
    intro p hp
    simp only [c6Heap, List.mem_singleton] at hp
    rw [hp]
    refine ⟨Nat.lt_succ_self 0, ?_⟩
    intro r hr
    simp [cellRefs, valRefs] at hr
  have hdb : valBound (HVal.vref 0) 1 := by
    intro r hr
    simp only [valRefs, List.mem_singleton] at hr
    rw [hr]
    exact Nat.lt_succ_self 0
  have hmain := selectBackground_copy_no_aliasing_amended c6Builder "FX" none
    c6Desc rfl rfl rfl rfl (by decide) c6Heap 1 (HVal.vref 0) (HVal.vref 0)
    (HVal.vref 1) ((1, HCell.hobj [("starColor", HVal.vstr "white")]) :: c6Heap)
    2 3 2 hwf hdb hdb (by decide)
  refine ⟨hwf, hdb, ?_, hmain.2.1 1 (by decide)⟩
  rw [hmain.1]
  rfl
